import Mathlib

/-!
# Verification of the FBCW fantasy-baseball stats and projections pipeline

Shallow embedding of the stat-aggregation and projection-processing logic of
the FBCW repository (`collect_weekly_stats.py`, `fetch_projections.py`,
`fetch_ros_projections.py`), together with proofs settling the frozen claims
about the natural-language specification.

Modelling conventions:
* Python floats are modelled as exact rationals (`ℚ`); `round(x, d)` is
  modelled as round-half-up to `d` decimal places (`roundTo`).  Every claim
  compares values computed with the same rounding function on both sides, so
  the tie-breaking convention is immaterial; all concrete counterexamples are
  chosen away from rounding ties so that they are also counterexamples under
  Python's float semantics.
* Python dicts are modelled as insertion-ordered association lists: assigning
  to an existing key updates it in place, assigning to a fresh key appends.
* Network fetches, OAuth and file I/O are external collaborators; their
  results are passed in as explicit inputs (a fetch that raised an exception
  for one team is modelled as `Option.none` for that team, mirroring the
  per-team `try/except` that skips the team).
-/

namespace FBCW

attribute [local semireducible] Rat.ofScientific Rat.mul Rat.inv Rat.add Rat.sub

/-- `round(x, d)` of Python, over exact rationals: round `q` to `d` decimal
places, half away from zero replaced by half-up (immaterial here, see the
module comment). -/
def roundTo (q : ℚ) (d : ℕ) : ℚ :=
  ((q * 10 ^ d + 1 / 2).floor : ℚ) / 10 ^ d

/-- Ordered-dict lookup: first binding of key `k`, as in a Python dict
(`d[k]` / `d.get(k)`). -/
def dictGet [DecidableEq κ] (m : List (κ × α)) (k : κ) : Option α :=
  match m with
  | [] => none
  | (k', v) :: rest => if k' = k then some v else dictGet rest k

/-- `d.get(k, default)` of Python. -/
def dictGetD [DecidableEq κ] (m : List (κ × α)) (k : κ) (d : α) : α :=
  (dictGet m k).getD d

/-- `d[k] = v` of Python on an insertion-ordered dict: update the existing
binding in place, or append a fresh binding at the end. -/
def dictSet [DecidableEq κ] (m : List (κ × α)) (k : κ) (v : α) : List (κ × α) :=
  match m with
  | [] => [(k, v)]
  | (k', v') :: rest => if k' = k then (k, v) :: rest else (k', v') :: dictSet rest k v

/-- The keys of an association list, in order. -/
def dictKeys (m : List (κ × α)) : List κ :=
  m.map Prod.fst

/-- A Python value arriving from the provider's JSON, as seen by the numeric
coercion helpers: `none` models Python `None`; `num q` a value that
`float()` converts to the finite float modelled by `q`; `nan` a value that
converts to a NaN; `unconvertible` a value on which `float()` raises
`ValueError`/`TypeError`. -/
inductive PyValue where
  | none
  | num (q : ℚ)
  | nan
  | unconvertible
  deriving DecidableEq

/-- Stable insertion step for Python's `sorted(..., reverse=True)`: the new
element goes before the first strictly smaller key, after equal keys that
were earlier in the input (stability). -/
def insertDescBy (key : α → ℚ) (a : α) : List α → List α
  | [] => [a]
  | b :: l => if key b ≤ key a then a :: b :: l else b :: insertDescBy key a l

/-- Python's stable `sorted(..., key=key, reverse=True)` (also the stable
in-place `list.sort(..., reverse=True)`). -/
def sortDescBy (key : α → ℚ) (l : List α) : List α :=
  l.foldr (insertDescBy key) []

/-- Stable insertion step for Python's ascending `sorted(..., key=key)`. -/
def insertAscBy (key : α → ℚ) (a : α) : List α → List α
  | [] => [a]
  | b :: l => if key a ≤ key b then a :: b :: l else b :: insertAscBy key a l

/-- Python's stable ascending `sorted(..., key=key)`. -/
def sortAscBy (key : α → ℚ) (l : List α) : List α :=
  l.foldr (insertAscBy key) []

namespace CollectWeeklyStats

/-- `safe_float` of `collect_weekly_stats.py`: total defensive conversion to
float with a configurable default. -/
def safe_float (value : PyValue) (default : ℚ := 0) : ℚ :=
  match value with
  | .none => default
  | .num q => q
  | .nan => default
  | .unconvertible => default

/-- `SEASON` constant. -/
def SEASON : ℤ := 2026

/-- `BATTING_SCORING`: live-league batting weight table. -/
def BATTING_SCORING : List (String × ℚ) :=
  [("1B", 2.6), ("2B", 5.2), ("3B", 7.8), ("HR", 10.4),
   ("RBI", 1.9), ("R", 1.9), ("BB", 2.6), ("HBP", 2.6),
   ("SB", 4.2), ("CS", -2.6), ("SO", -1), ("IBB", 0),
   ("CYC", 10), ("SLAM", 10)]

/-- `PITCHING_SCORING`: live-league pitching weight table. -/
def PITCHING_SCORING : List (String × ℚ) :=
  [("IP", 5), ("W", 4), ("L", -4), ("SV", 8), ("HLD", 4),
   ("ER", -3), ("H", -1), ("BB", -1), ("K", 3),
   ("QS", 4), ("CG", 5), ("SHO", 5), ("NH", 10), ("PICK", 2)]

/-- `BATTING_STAT_IDS`: Yahoo stat-id to batting stat-name map. -/
def BATTING_STAT_IDS : List (ℤ × String) :=
  [(60, "1B"), (61, "2B"), (62, "3B"), (63, "HR"),
   (13, "RBI"), (12, "R"), (18, "BB"), (17, "HBP"),
   (15, "SB"), (16, "CS"), (14, "K"), (76, "IBB"),
   (93, "CYC"), (75, "SLAM")]

/-- `PITCHING_STAT_IDS`: Yahoo stat-id to pitching stat-name map. -/
def PITCHING_STAT_IDS : List (ℤ × String) :=
  [(50, "IP"), (28, "W"), (29, "L"), (32, "SV"), (48, "HLD"),
   (27, "ER"), (25, "H"), (39, "BB"), (42, "K"),
   (63, "QS"), (34, "CG"), (35, "SHO"), (54, "NH"), (77, "PICK")]

/-- One `{stat_id, value}` pair of a provider box-score response; the value
still has to pass `safe_float`. -/
structure StatPair where
  stat_id : ℤ
  value : PyValue
  deriving DecidableEq

/-- Identity fields of one fantasy team, as extracted from `lg.teams()`
(`team_key`, `team_info['name']`, the first manager's nickname). -/
structure TeamInfo where
  team_key : String
  team_name : String
  manager : String
  deriving DecidableEq

/-- One team's fetch result for a week: `none` models the per-team
`try/except` path where `lg.team_stats` raised and the team is skipped. -/
structure TeamFetch where
  info : TeamInfo
  result : Option (List StatPair)
  deriving DecidableEq

/-- A `StatRecord`: identity fields plus the insertion-ordered numeric part
of the Python dict (`Points`, stat names, and for pitching `ERA`, `K/9`).
The three identity string fields live outside `stats`; the skip of
`['team_key', 'team_name', 'manager']` in the Python iteration over
`.items()` is thereby structural. -/
structure StatRecord where
  team_key : String
  team_name : String
  manager : String
  stats : List (String × ℚ)
  deriving DecidableEq

/-- The numeric dict both records start from: `{'Points': 0}`. -/
def initStats : List (String × ℚ) := [("Points", 0)]

/-- Processing of one `{stat_id, value}` pair for one side (batting or
pitching) of `get_team_stats`: store the named value and, when the name is
in the scoring table, add its weighted contribution to `Points`.  In the
source both sides are updated inside a single loop; the two dicts are
independent, so each side is folded separately here. -/
def applyStat (ids : List (ℤ × String)) (table : List (String × ℚ))
    (rec : List (String × ℚ)) (sp : StatPair) : List (String × ℚ) :=
  match dictGet ids sp.stat_id with
  | Option.none => rec
  | some statName =>
    let v := safe_float sp.value 0
    let rec1 := dictSet rec statName v
    if (dictGet table statName).isSome then
      dictSet rec1 "Points" (dictGetD rec1 "Points" 0 + v * dictGetD table statName 0)
    else rec1

/-- The shared derived-rate-stat block (`get_team_stats` and the final pass
of `calculate_cumulative_stats` contain the same code): set `ERA` and `K/9`
from `ER`, `K`, `IP` when `IP > 0`, else set both to `0`.  The Python guard
`'IP' in d and d['IP'] > 0` is expressed as `0 < d.get('IP', 0)`, which is
equivalent (an absent key reads as the default `0`). -/
def deriveRates (s : List (String × ℚ)) : List (String × ℚ) :=
  if 0 < dictGetD s "IP" 0 then
    dictSet (dictSet s "ERA" (roundTo (dictGetD s "ER" 0 * 9 / dictGetD s "IP" 0) 2))
      "K/9" (roundTo (dictGetD s "K" 0 * 9 / dictGetD s "IP" 0) 2)
  else
    dictSet (dictSet s "ERA" 0) "K/9" 0

/-- The shared `d['Points'] = round(d['Points'], 1)` statement. -/
def roundPointsDict (s : List (String × ℚ)) : List (String × ℚ) :=
  dictSet s "Points" (roundTo (dictGetD s "Points" 0) 1)

/-- The hitting `StatRecord` built by `get_team_stats` for one team. -/
def build_hitting (ti : TeamInfo) (stats : List StatPair) : StatRecord :=
  let s := stats.foldl (applyStat BATTING_STAT_IDS BATTING_SCORING) initStats
  { team_key := ti.team_key, team_name := ti.team_name, manager := ti.manager,
    stats := roundPointsDict s }

/-- The pitching `StatRecord` built by `get_team_stats` for one team,
including the derived `ERA` and `K/9` fields. -/
def build_pitching (ti : TeamInfo) (stats : List StatPair) : StatRecord :=
  let s := stats.foldl (applyStat PITCHING_STAT_IDS PITCHING_SCORING) initStats
  { team_key := ti.team_key, team_name := ti.team_name, manager := ti.manager,
    stats := roundPointsDict (deriveRates s) }

/-- `get_team_stats`: build the hitting and pitching record lists for one
week; a team whose fetch raised is skipped from both lists. -/
def get_team_stats (teams : List TeamFetch) : List StatRecord × List StatRecord :=
  teams.foldl
    (fun acc tf =>
      match tf.result with
      | Option.none => acc
      | some stats =>
        (acc.1 ++ [build_hitting tf.info stats], acc.2 ++ [build_pitching tf.info stats]))
    ([], [])

/-- The fixed hitting category list of `get_category_leaders`. -/
def hitting_cats : List String := ["HR", "RBI", "SB", "1B", "2B", "3B"]

/-- The fixed pitching category list of `get_category_leaders`. -/
def pitching_cats : List String := ["K", "W", "SV", "QS"]

/-- One counting-category step of `get_category_leaders`: sort descending on
the category value and keep the leader only when its value is positive. -/
def leaderFor (cat : String) (recs : List StatRecord) : Option (String × ℚ) :=
  match sortDescBy (fun r => dictGetD r.stats cat 0) recs with
  | [] => Option.none
  | top :: _ =>
    if 0 < dictGetD top.stats cat 0 then some (top.team_key, dictGetD top.stats cat 0)
    else Option.none

/-- The fold of `get_category_leaders` over one fixed category list. -/
def catFold (cats : List String) (recs : List StatRecord)
    (leaders : List (String × (String × ℚ))) : List (String × (String × ℚ)) :=
  cats.foldl
    (fun ld cat =>
      match leaderFor cat recs with
      | some e => dictSet ld cat e
      | Option.none => ld)
    leaders

/-- `get_category_leaders`: counting categories (leader kept only when its
value is positive), then the lower-is-better `ERA` entry restricted to teams
with `IP > 0` (sort key defaults to `999` for a record without an `ERA` key,
the stored value to `0`, exactly as in the source). -/
def get_category_leaders (hitting_stats pitching_stats : List StatRecord) :
    List (String × (String × ℚ)) :=
  let leaders := catFold hitting_cats hitting_stats []
  let leaders := catFold pitching_cats pitching_stats leaders
  let pitching_with_ip := pitching_stats.filter (fun p => 0 < dictGetD p.stats "IP" 0)
  match sortAscBy (fun r => dictGetD r.stats "ERA" 999) pitching_with_ip with
  | [] => leaders
  | top :: _ => dictSet leaders "ERA" (top.team_key, dictGetD top.stats "ERA" 0)

/-- Keys skipped when accumulating a weekly pitching record into
`cumulative_pitching` (besides the structurally separate identity fields):
the derived rate stats are never summed. -/
def pitchSkip : List String := ["ERA", "K/9"]

/-- Keys skipped when accumulating a weekly hitting record (the identity
fields are structurally separate, so nothing remains to skip). -/
def hitSkip : List String := []

/-- The inner `for key, value in record.items()` loop of
`calculate_cumulative_stats`: add every non-skipped numeric field of the
weekly record onto the accumulated dict. -/
def addStats (skip : List String) (base : List (String × ℚ))
    (entries : List (String × ℚ)) : List (String × ℚ) :=
  entries.foldl
    (fun st kv =>
      if kv.1 ∈ skip then st
      else dictSet st kv.1 (dictGetD st kv.1 0 + kv.2))
    base

/-- Folding one weekly record into a cumulative dict keyed by `team_key`:
initialise the team entry (with `Points: 0`) on first sight, then accumulate
its numeric fields. -/
def accumulateRecord (skip : List String)
    (acc : List (String × StatRecord)) (r : StatRecord) : List (String × StatRecord) :=
  match dictGet acc r.team_key with
  | some c => dictSet acc r.team_key { c with stats := addStats skip c.stats r.stats }
  | Option.none =>
    acc ++ [(r.team_key,
      { team_key := r.team_key, team_name := r.team_name, manager := r.manager,
        stats := addStats skip initStats r.stats })]

/-- A `Matchup` row: two team keys with their fantasy-point totals. -/
structure Matchup where
  team1_key : String
  team1_score : ℚ
  team2_key : String
  team2_score : ℚ
  deriving DecidableEq

/-- A `WeekEntry`: one completed scoring period as stored under
`weeks[str(week)]`.  The top-performer lists are always empty in the source
(`get_top_performers` returns empty lists). -/
structure WeekEntry where
  hitting : List StatRecord
  pitching : List StatRecord
  matchups : List Matchup
  topHitters : List String
  topPitchers : List String
  categoryLeaders : List (String × (String × ℚ))
  deriving DecidableEq

/-- Final pass of `calculate_cumulative_stats` over a cumulative pitching
record: recompute `ERA` and `K/9` from the accumulated `ER`, `K`, `IP`
(guarded by `IP > 0`), then round the accumulated `Points`. -/
def finalizePitching (c : StatRecord) : StatRecord :=
  { c with stats := roundPointsDict (deriveRates c.stats) }

/-- Final pass over a cumulative hitting record: round the accumulated
`Points`. -/
def finalizeHitting (c : StatRecord) : StatRecord :=
  { c with stats := roundPointsDict c.stats }

/-- The `cumulative` value: hitting and pitching record lists. -/
structure Cumulative where
  hitting : List StatRecord
  pitching : List StatRecord
  deriving DecidableEq

/-- `calculate_cumulative_stats`: accumulate every stored week's records per
team (in week order, then record order), then finalize the derived fields.
The source updates both per-team dicts inside one loop over the weeks; the
two dicts are independent, so each is folded separately here. -/
def calculate_cumulative_stats (all_weeks : List (String × WeekEntry)) : Cumulative :=
  let hAcc := all_weeks.foldl
    (fun acc kv => kv.2.hitting.foldl (accumulateRecord hitSkip) acc) []
  let pAcc := all_weeks.foldl
    (fun acc kv => kv.2.pitching.foldl (accumulateRecord pitchSkip) acc) []
  { hitting := hAcc.map (fun kv => finalizeHitting kv.2),
    pitching := pAcc.map (fun kv => finalizePitching kv.2) }

/-- The persisted season document (root JSON object).  `lastUpdated` is the
timestamp string the run writes. -/
structure SeasonDoc where
  currentWeek : ℤ
  weeks : List (String × WeekEntry)
  cumulative : Cumulative
  lastUpdated : String
  season : ℤ
  deriving DecidableEq

/-- Lines 530..545 of `collect_weekly_stats`: overwrite the entry for the
collected week, set `currentWeek`, recompute `cumulative` from all stored
weeks, stamp `lastUpdated` and `season`. -/
def aggregateWeek (doc : SeasonDoc) (week : ℤ) (entry : WeekEntry) (now : String) :
    SeasonDoc :=
  let weeks := dictSet doc.weeks (toString week) entry
  { currentWeek := week, weeks := weeks,
    cumulative := calculate_cumulative_stats weeks,
    lastUpdated := now, season := SEASON }

/-- `get_completed_week`: on a Monday, the previous week (at least 1);
otherwise the current week. -/
def get_completed_week (current_week : ℤ) (isMonday : Bool) : ℤ :=
  if isMonday then max 1 (current_week - 1) else current_week

/-- External inputs of one run of the script: the provider responses and the
local state, all fixed for the duration of the run.  `currentWeek` is the
value `get_current_week` extracts from the league settings (defaulting to 1
on an exception, which the provider abstraction already folds in);
`teamsForWeek`/`matchupsForWeek` are the per-week provider responses;
`existing` is the parsed previous season document (`none` models a missing
or unreadable file, which cold-starts from the empty default). -/
structure Env where
  leagueIds : List String
  currentWeek : ℤ
  isMonday : Bool
  existing : Option SeasonDoc
  teamsForWeek : ℤ → List TeamFetch
  matchupsForWeek : ℤ → List Matchup
  now : String

/-- The default document synthesized when no previous state exists. -/
def defaultDoc (completed_week : ℤ) : SeasonDoc :=
  { currentWeek := completed_week, weeks := [],
    cumulative := { hitting := [], pitching := [] },
    lastUpdated := "", season := SEASON }

/-- `collect_weekly_stats` (the main collection function) as a pure function
of the run's external inputs: `none` models the `return False` path when no
league is found; otherwise the document that is written is returned.  The
function takes no week argument: it always collects `get_completed_week`. -/
def collect_weekly_stats (env : Env) : Option SeasonDoc :=
  if env.leagueIds.isEmpty then Option.none
  else
    let completed_week := get_completed_week env.currentWeek env.isMonday
    let existing := env.existing.getD (defaultDoc completed_week)
    let week_stats := get_team_stats (env.teamsForWeek completed_week)
    let entry : WeekEntry :=
      { hitting := week_stats.1, pitching := week_stats.2,
        matchups := env.matchupsForWeek completed_week,
        topHitters := [], topPitchers := [],
        categoryLeaders := get_category_leaders week_stats.1 week_stats.2 }
    some (aggregateWeek existing completed_week entry env.now)

/-- Python's `int(s)` on a canonical integer literal: an optional minus sign
followed by decimal digits.  Python's `int` also accepts surrounding
whitespace, a plus sign and underscores; on everything it rejects the script
raises `ValueError` (modelled as a crash by the caller). -/
def digitVal (c : Char) : Option ℕ :=
  if '0' ≤ c ∧ c ≤ '9' then some (c.toNat - '0'.toNat) else Option.none

/-- Digit-string value, `none` on the empty string or a non-digit. -/
def parseNatDigits (l : List Char) : Option ℕ :=
  match l with
  | [] => Option.none
  | _ => l.foldl (fun acc c => acc.bind fun a => (digitVal c).map fun d => a * 10 + d) (some 0)

/-- `int(s)` on canonical integer literals (see `digitVal`). -/
def pyInt (s : String) : Option ℤ :=
  match s.data with
  | '-' :: rest => (parseNatDigits rest).map fun n => -(n : ℤ)
  | l => (parseNatDigits l).map fun n => (n : ℤ)

/-- Outcome of the `__main__` block: the help text, a crash (unhandled
`ValueError` from `int(sys.argv[2])`), or a run of `collect_weekly_stats`. -/
inductive MainOut where
  | helpText
  | crashed
  | ran (result : Option SeasonDoc)
  deriving DecidableEq

/-- The `__main__` dispatch of `collect_weekly_stats.py` over the user
arguments (`sys.argv[1:]`).  `--week N` parses `N` and then discards it:
every non-help branch calls `collect_weekly_stats()` with no arguments. -/
def runMain (args : List String) (env : Env) : MainOut :=
  match args with
  | [] => .ran (collect_weekly_stats env)
  | a1 :: rest =>
    if a1 = "--help" then .helpText
    else
      match rest with
      | a2 :: _ =>
        if a1 = "--week" then
          match pyInt a2 with
          | some _ => .ran (collect_weekly_stats env)
          | Option.none => .crashed
        else .ran (collect_weekly_stats env)
      | [] => .ran (collect_weekly_stats env)

end CollectWeeklyStats

/-- Python's `int(x)` on a float: truncation toward zero. -/
def truncQ (q : ℚ) : ℤ :=
  if q < 0 then -((-q).floor) else q.floor

/-- ASCII whitespace, as stripped by Python's `str.strip()` (the exotic
Unicode whitespace Python also strips never occurs in position strings). -/
def isPySpace (c : Char) : Bool :=
  c = ' ' ∨ c = '\t' ∨ c = '\n' ∨ c = '\r' ∨ c = '\x0b' ∨ c = '\x0c'

/-- Python's `str.strip()`: drop whitespace from both ends. -/
def pyStrip (s : String) : String :=
  ⟨((s.data.dropWhile isPySpace).reverse.dropWhile isPySpace).reverse⟩

/-- Python's `a or b` on optional numeric ids: a missing (`None`) or zero
(falsy) left operand yields the right operand. -/
def pyOr (a b : Option ℤ) : Option ℤ :=
  match a with
  | some x => if x = 0 then b else some x
  | Option.none => b

namespace FetchProjections

/-- `FULL_PLAYER_LIST_SYSTEMS`: preseason systems that keep every player
(no truncation). -/
def FULL_PLAYER_LIST_SYSTEMS : List String := ["zips", "zipsdc", "zips2027", "zips2028"]

/-- `BATTING_SCORING` of `fetch_projections.py` (projection scoring table;
distinct from the live-league table). -/
def BATTING_SCORING : List (String × ℚ) :=
  [("1B", 1.1), ("2B", 2.2), ("3B", 3.3), ("HR", 4.4),
   ("RBI", 1.0), ("SB", 2.0), ("CS", -1.0), ("BB", 1.0),
   ("IBB", 1.0), ("HBP", 1.0), ("SO", -0.5), ("CYC", 5.0), ("SLAM", 2.0)]

/-- `PITCHING_SCORING` of `fetch_projections.py`.  Note the keys `HA`
(hits allowed) and `BBA` (walks allowed). -/
def PITCHING_SCORING : List (String × ℚ) :=
  [("IP", 2.5), ("W", 2.5), ("L", -3.0), ("CG", 5.0), ("ShO", 5.0),
   ("SV", 5.0), ("HA", -0.75), ("ER", -1.75), ("BBA", -0.75),
   ("K", 1.5), ("HLD", 2.0), ("PICK", 3.0), ("NH", 10.0), ("QS", 3.0)]

/-- `calculate_batting_points`: fixed weighted sum over the batter stats
dict, rounded to one decimal. -/
def calculate_batting_points (stats : List (String × ℚ)) : ℚ :=
  roundTo
    (dictGetD stats "1B" 0 * dictGetD BATTING_SCORING "1B" 0
      + dictGetD stats "2B" 0 * dictGetD BATTING_SCORING "2B" 0
      + dictGetD stats "3B" 0 * dictGetD BATTING_SCORING "3B" 0
      + dictGetD stats "HR" 0 * dictGetD BATTING_SCORING "HR" 0
      + dictGetD stats "RBI" 0 * dictGetD BATTING_SCORING "RBI" 0
      + dictGetD stats "SB" 0 * dictGetD BATTING_SCORING "SB" 0
      + dictGetD stats "CS" 0 * dictGetD BATTING_SCORING "CS" 0
      + dictGetD stats "BB" 0 * dictGetD BATTING_SCORING "BB" 0
      + dictGetD stats "IBB" 0 * dictGetD BATTING_SCORING "IBB" 0
      + dictGetD stats "HBP" 0 * dictGetD BATTING_SCORING "HBP" 0
      + dictGetD stats "SO" 0 * dictGetD BATTING_SCORING "SO" 0) 1

/-- `calculate_pitching_points`: fixed weighted sum over the pitcher stats
dict, rounded to one decimal.  The record's `H` is weighted by the table's
`HA` and the record's `BB` by the table's `BBA`. -/
def calculate_pitching_points (stats : List (String × ℚ)) : ℚ :=
  roundTo
    (dictGetD stats "IP" 0 * dictGetD PITCHING_SCORING "IP" 0
      + dictGetD stats "W" 0 * dictGetD PITCHING_SCORING "W" 0
      + dictGetD stats "L" 0 * dictGetD PITCHING_SCORING "L" 0
      + dictGetD stats "SV" 0 * dictGetD PITCHING_SCORING "SV" 0
      + dictGetD stats "HLD" 0 * dictGetD PITCHING_SCORING "HLD" 0
      + dictGetD stats "ER" 0 * dictGetD PITCHING_SCORING "ER" 0
      + dictGetD stats "H" 0 * dictGetD PITCHING_SCORING "HA" 0
      + dictGetD stats "BB" 0 * dictGetD PITCHING_SCORING "BBA" 0
      + dictGetD stats "K" 0 * dictGetD PITCHING_SCORING "K" 0
      + dictGetD stats "QS" 0 * dictGetD PITCHING_SCORING "QS" 0
      + dictGetD stats "CG" 0 * dictGetD PITCHING_SCORING "CG" 0) 1

/-- `get_headshot_url`: deterministic headshot URL from a numeric player id,
with the fixed placeholder id `1` when no (truthy) id is available. -/
def get_headshot_url (mlb_id : Option ℤ) : String :=
  match mlb_id with
  | some i =>
    if i = 0 then
      "https://img.mlbstatic.com/mlb-photos/image/upload/d_people:generic:headshot:67:current.png/w_213,q_auto:best/v1/people/1/headshot/67/current"
    else
      "https://img.mlbstatic.com/mlb-photos/image/upload/d_people:generic:headshot:67:current.png/w_213,q_auto:best/v1/people/"
        ++ toString i ++ "/headshot/67/current"
  | Option.none =>
    "https://img.mlbstatic.com/mlb-photos/image/upload/d_people:generic:headshot:67:current.png/w_213,q_auto:best/v1/people/1/headshot/67/current"

/-- One raw batter row of a Fangraphs projections response, restricted to
the fields the script reads.  `none` models an absent key; `doubles` and
`triples` stand for the JSON keys `2B` and `3B`. -/
structure RawBatter where
  PlayerName : Option String
  Name : Option String
  Team : Option String
  teamid : Option String
  minpos : Option String
  H : Option ℚ
  doubles : Option ℚ
  triples : Option ℚ
  HR : Option ℚ
  RBI : Option ℚ
  R : Option ℚ
  SB : Option ℚ
  BB : Option ℚ
  SO : Option ℚ
  AVG : Option ℚ
  OPS : Option ℚ
  PA : Option ℚ
  G : Option ℚ
  xMLBAMID : Option ℤ
  mlbamid : Option ℤ
  MLBAMID : Option ℤ
  deriving DecidableEq

/-- One raw pitcher row of a Fangraphs projections response. -/
structure RawPitcher where
  PlayerName : Option String
  Name : Option String
  Team : Option String
  teamid : Option String
  GS : Option ℚ
  G : Option ℚ
  W : Option ℚ
  L : Option ℚ
  SV : Option ℚ
  HLD : Option ℚ
  IP : Option ℚ
  SO : Option ℚ
  K : Option ℚ
  ER : Option ℚ
  H : Option ℚ
  BB : Option ℚ
  ERA : Option ℚ
  WHIP : Option ℚ
  xMLBAMID : Option ℤ
  mlbamid : Option ℤ
  MLBAMID : Option ℤ
  deriving DecidableEq

/-- A processed `ProjectionRecord`. -/
structure ProjRecord where
  name : String
  team : String
  position : String
  type : String
  projected_points : ℚ
  stats : List (String × ℚ)
  headshot_url : String
  mlb_id : Option ℤ
  deriving DecidableEq

/-- The `name`/`team` normalization shared by both processing loops. -/
def normTeam (team : Option String) (teamid : Option String) : String :=
  let t := (team.or teamid).getD "FA"
  if t = "" ∨ t = "- - -" then "FA" else t

/-- Batter position cleanup: `minpos`, stripped, defaulted to `Util`, with a
`,Util` suffix for regular positions. -/
def normBatterPos (minpos : Option String) : String :=
  let p := minpos.getD "Util"
  let p := if p = "" then p else pyStrip p
  let p := if p = "" ∨ p = "-" ∨ p = "nan" then "Util" else p
  if p ≠ "Util" ∧ p ≠ "P" ∧ p ≠ "SP" ∧ p ≠ "RP" then p ++ ",Util" else p

/-- The processed record for one raw batter row (the loop body of
`process_batter_projections` before the playing-time filter). -/
def mkBatterRecord (pl : RawBatter) : ProjRecord :=
  let name := (pl.PlayerName.or pl.Name).getD "Unknown"
  let team := normTeam pl.Team pl.teamid
  let position := normBatterPos pl.minpos
  let h := truncQ (pl.H.getD 0)
  let doubles := truncQ (pl.doubles.getD 0)
  let triples := truncQ (pl.triples.getD 0)
  let hr := truncQ (pl.HR.getD 0)
  let singles := h - doubles - triples - hr
  let stats : List (String × ℚ) :=
    [("G", (truncQ (pl.G.getD 0) : ℚ)),
     ("HR", (hr : ℚ)),
     ("RBI", (truncQ (pl.RBI.getD 0) : ℚ)),
     ("R", (truncQ (pl.R.getD 0) : ℚ)),
     ("SB", (truncQ (pl.SB.getD 0) : ℚ)),
     ("H", (h : ℚ)),
     ("1B", (singles : ℚ)),
     ("2B", (doubles : ℚ)),
     ("3B", (triples : ℚ)),
     ("BB", (truncQ (pl.BB.getD 0) : ℚ)),
     ("SO", (truncQ (pl.SO.getD 0) : ℚ)),
     ("AVG", pl.AVG.getD 0),
     ("OPS", pl.OPS.getD 0),
     ("PA", (truncQ (pl.PA.getD 0) : ℚ))]
  let mlb_id := pyOr (pyOr pl.xMLBAMID pl.mlbamid) pl.MLBAMID
  { name := name, team := team, position := position, type := "batter",
    projected_points := calculate_batting_points stats, stats := stats,
    headshot_url := get_headshot_url mlb_id, mlb_id := Option.none }

/-- The processed record for one raw pitcher row (the loop body of
`process_pitcher_projections` before the playing-time filter). -/
def mkPitcherRecord (pl : RawPitcher) : ProjRecord :=
  let name := (pl.PlayerName.or pl.Name).getD "Unknown"
  let team := normTeam pl.Team pl.teamid
  let gs := truncQ (pl.GS.getD 0)
  let g := truncQ (pl.G.getD 0)
  let position := if 0 < gs ∧ (1 : ℚ) / 2 ≤ (gs : ℚ) / (max g 1 : ℤ) then "SP" else "RP"
  let so := truncQ ((pl.SO.or pl.K).getD 0)
  let stats : List (String × ℚ) :=
    [("W", (truncQ (pl.W.getD 0) : ℚ)),
     ("L", (truncQ (pl.L.getD 0) : ℚ)),
     ("SV", (truncQ (pl.SV.getD 0) : ℚ)),
     ("HLD", (truncQ (pl.HLD.getD 0) : ℚ)),
     ("IP", pl.IP.getD 0),
     ("K", (so : ℚ)),
     ("SO", (so : ℚ)),
     ("ER", (truncQ (pl.ER.getD 0) : ℚ)),
     ("H", (truncQ (pl.H.getD 0) : ℚ)),
     ("BB", (truncQ (pl.BB.getD 0) : ℚ)),
     ("ERA", pl.ERA.getD 0),
     ("WHIP", pl.WHIP.getD 0),
     ("G", (g : ℚ)),
     ("GS", (gs : ℚ))]
  let mlb_id := pyOr (pyOr pl.xMLBAMID pl.mlbamid) pl.MLBAMID
  { name := name, team := team, position := position, type := "pitcher",
    projected_points := calculate_pitching_points stats, stats := stats,
    headshot_url := get_headshot_url mlb_id, mlb_id := Option.none }

/-- The shared body of `process_batter_projections`, parameterized by the
playing-time threshold (`50` preseason, `ROS_MIN_PA = 20` in the ROS
script): keep the records with `stats['PA'] >= minPA`, then sort descending
by projected points (stable). -/
def processBattersWith (minPA : ℚ) (raw : List RawBatter) : List ProjRecord :=
  let players := raw.foldl
    (fun acc pl =>
      let r := mkBatterRecord pl
      if minPA ≤ dictGetD r.stats "PA" 0 then acc ++ [r] else acc)
    []
  sortDescBy (fun r => r.projected_points) players

/-- The shared body of `process_pitcher_projections`, parameterized by the
innings threshold (`10` preseason, `ROS_MIN_IP = 5` in the ROS script). -/
def processPitchersWith (minIP : ℚ) (raw : List RawPitcher) : List ProjRecord :=
  let players := raw.foldl
    (fun acc pl =>
      let r := mkPitcherRecord pl
      if minIP ≤ dictGetD r.stats "IP" 0 then acc ++ [r] else acc)
    []
  sortDescBy (fun r => r.projected_points) players

/-- `process_batter_projections` of `fetch_projections.py` (preseason,
threshold `PA >= 50`). -/
def process_batter_projections (raw : List RawBatter) : List ProjRecord :=
  processBattersWith 50 raw

/-- `process_pitcher_projections` of `fetch_projections.py` (preseason,
threshold `IP >= 10`). -/
def process_pitcher_projections (raw : List RawPitcher) : List ProjRecord :=
  processPitchersWith 10 raw

/-- The saved per-system projection document (scoring tables omitted: they
are the constant tables above). -/
structure ProjectionDoc where
  generated_at : String
  year : ℤ
  projection_type : String
  is_ros : Bool
  batters : List ProjRecord
  pitchers : List ProjRecord
  note : Option String
  deriving DecidableEq

/-- `fetch_and_save_projections` as a pure function of the two fetched raw
lists: `none` models the `return False` path when both fetches came back
empty; otherwise the document that is written is returned.  Systems not in
`FULL_PLAYER_LIST_SYSTEMS` are truncated to the top 400 per type after the
descending sort. -/
def fetch_and_save_projections (output_name : String)
    (batters_raw : List RawBatter) (pitchers_raw : List RawPitcher)
    (now : String) : Option ProjectionDoc :=
  if batters_raw.isEmpty ∧ pitchers_raw.isEmpty then Option.none
  else
    let include_all_players := output_name ∈ FULL_PLAYER_LIST_SYSTEMS
    let batters := process_batter_projections batters_raw
    let pitchers := if pitchers_raw.isEmpty then [] else process_pitcher_projections pitchers_raw
    let batters := if include_all_players then batters else batters.take 400
    let pitchers := if include_all_players then pitchers else pitchers.take 400
    let projection_year : ℤ :=
      if output_name = "zips2027" then 2027
      else if output_name = "zips2028" then 2028
      else 2026
    some
      { generated_at := now, year := projection_year, projection_type := output_name,
        is_ros := false, batters := batters, pitchers := pitchers,
        note :=
          if output_name = "zips2027" ∨ output_name = "zips2028" then
            some ("ZiPS " ++ toString projection_year ++ " projection (multi-year forecast)")
          else Option.none }

end FetchProjections

namespace FetchRosProjections

/-- `ROS_MIN_PA`: rest-of-season batter playing-time threshold. -/
def ROS_MIN_PA : ℚ := 20

/-- `ROS_MIN_IP`: rest-of-season pitcher innings threshold. -/
def ROS_MIN_IP : ℚ := 5

/-- `process_batter_projections` of `fetch_ros_projections.py`: identical
loop body to the preseason script, with threshold `PA >= ROS_MIN_PA`. -/
def process_batter_projections (raw : List FetchProjections.RawBatter) :
    List FetchProjections.ProjRecord :=
  FetchProjections.processBattersWith ROS_MIN_PA raw

/-- `process_pitcher_projections` of `fetch_ros_projections.py`: identical
loop body to the preseason script, with threshold `IP >= ROS_MIN_IP`. -/
def process_pitcher_projections (raw : List FetchProjections.RawPitcher) :
    List FetchProjections.ProjRecord :=
  FetchProjections.processPitchersWith ROS_MIN_IP raw

end FetchRosProjections

/-! ## Specification-side definitions

The definitions below render the claims' own formulas (sums of base stats
across weeks, the restricted weighted scoring sum, sortedness); they are the
statement vocabulary, not part of the embedded program. -/

/-- Descending sortedness by a key (adjacent-pairs formulation). -/
def SortedDescBy (key : α → ℚ) (l : List α) : Prop :=
  l.Pairwise (fun a b => key b ≤ key a)

/-- The claim-side weighted scoring sum of a record against a weight table:
every entry contributes `value × weight`, where a key absent from the table
has weight `0` (so it contributes exactly `0`). -/
def recSum (table entries : List (String × ℚ)) : ℚ :=
  (entries.map fun kv => kv.2 * dictGetD table kv.1 0).sum

/-- The claim's `Points` formula: the restricted weighted sum, rounded to one
decimal place. -/
def specPoints (table entries : List (String × ℚ)) : ℚ :=
  roundTo (recSum table entries) 1

/-- `H`/`BB` of a pitcher projection record are scored with the table's
`HA`/`BBA` weights: the key renaming under which the projection pitcher
scoring is a restricted weighted sum. -/
def pitchAllowedKey (k : String) : String :=
  if k = "H" then "HA" else if k = "BB" then "BBA" else k

/-- The renamed weighted sum for pitcher projection records (see
`pitchAllowedKey`). -/
def recSumRenamed (table entries : List (String × ℚ)) : ℚ :=
  (entries.map fun kv => kv.2 * dictGetD table (pitchAllowedKey kv.1) 0).sum

namespace CollectWeeklyStats

/-- The stat value an accumulated cumulative dict holds for team `t` at key
`k` (0 when the team or the key is absent). -/
def statOf (acc : List (String × StatRecord)) (t k : String) : ℚ :=
  ((dictGet acc t).map fun c => dictGetD c.stats k 0).getD 0

/-- Claim-side sum of a stat over the records of one week that belong to
team `t` (an absent key reads as 0). -/
def teamSum (recs : List StatRecord) (t k : String) : ℚ :=
  ((recs.filter fun r => r.team_key = t).map fun r => dictGetD r.stats k 0).sum

/-- Claim-side sum of a stat for team `t` across all stored weeks, on one
side (hitting or pitching) of the week entries. -/
def weeksSum (side : WeekEntry → List StatRecord) (weeks : List (String × WeekEntry))
    (t k : String) : ℚ :=
  (weeks.map fun kv => teamSum (side kv.2) t k).sum

/-- Well-formedness of stored week entries: each record's stats dict has
distinct keys (true of every dict-derived record; the association-list model
permits duplicates, which a Python dict cannot have). -/
def weeksWF (weeks : List (String × WeekEntry)) : Prop :=
  ∀ kv ∈ weeks, (∀ r ∈ (kv : String × WeekEntry).2.hitting, (dictKeys r.stats).Nodup) ∧
    (∀ r ∈ kv.2.pitching, (dictKeys r.stats).Nodup)

/-- Key/value discipline of a cumulative accumulator dict: keys are distinct
and each stored record carries its own key as `team_key`. -/
def accWF (acc : List (String × StatRecord)) : Prop :=
  (dictKeys acc).Nodup ∧ ∀ p ∈ acc, (p : String × StatRecord).2.team_key = p.1

/-- The hitting accumulator of `calculate_cumulative_stats` before
finalization. -/
def hitAccOf (weeks : List (String × WeekEntry)) : List (String × StatRecord) :=
  weeks.foldl (fun acc kv => kv.2.hitting.foldl (accumulateRecord hitSkip) acc) []

/-- The pitching accumulator of `calculate_cumulative_stats` before
finalization. -/
def pitchAccOf (weeks : List (String × WeekEntry)) : List (String × StatRecord) :=
  weeks.foldl (fun acc kv => kv.2.pitching.foldl (accumulateRecord pitchSkip) acc) []

/-- The resolved stat names of an input stat list under an id map, in input
order. -/
def resolvedNames (ids : List (ℤ × String)) (stats : List StatPair) : List String :=
  stats.filterMap fun sp => dictGet ids sp.stat_id

end CollectWeeklyStats

/-! ## Dictionary lemmas -/

theorem dictGet_dictSet_self [DecidableEq κ] (m : List (κ × α)) (k : κ) (v : α) :
    dictGet (dictSet m k v) k = some v := by
  induction m with
  | nil => simp [dictSet, dictGet]
  | cons p rest ih =>
    by_cases h : p.1 = k <;>
      simp [dictSet, dictGet, h, ih]

theorem dictGet_dictSet_ne [DecidableEq κ] (m : List (κ × α)) {k' k : κ} (v : α)
    (h : k' ≠ k) : dictGet (dictSet m k' v) k = dictGet m k := by
  induction m with
  | nil => simp [dictSet, dictGet, h]
  | cons p rest ih =>
    by_cases hp : p.1 = k' <;>
      simp [dictSet, dictGet, hp, ih, h]

theorem dictGetD_dictSet_self [DecidableEq κ] (m : List (κ × α)) (k : κ) (v d : α) :
    dictGetD (dictSet m k v) k d = v := by
  simp [dictGetD, dictGet_dictSet_self]

theorem dictGetD_dictSet_ne [DecidableEq κ] (m : List (κ × α)) {k' k : κ} (v d : α)
    (h : k' ≠ k) : dictGetD (dictSet m k' v) k d = dictGetD m k d := by
  simp [dictGetD, dictGet_dictSet_ne m v h]

theorem dictGet_append [DecidableEq κ] (m l : List (κ × α)) (k : κ) :
    dictGet (m ++ l) k = (dictGet m k).or (dictGet l k) := by
  induction m with
  | nil => simp [dictGet]
  | cons p rest ih =>
    by_cases h : p.1 = k <;> simp [dictGet, h, ih]

theorem dictGet_eq_none_iff [DecidableEq κ] (m : List (κ × α)) (k : κ) :
    dictGet m k = Option.none ↔ k ∉ dictKeys m := by
  induction m with
  | nil => simp [dictGet, dictKeys]
  | cons p rest ih =>
    by_cases h : p.1 = k <;> simp [dictGet, dictKeys, h, ih] <;> tauto

theorem dictGetD_eq_of_not_mem [DecidableEq κ] (m : List (κ × α)) (k : κ) (d : α)
    (h : k ∉ dictKeys m) : dictGetD m k d = d := by
  simp [dictGetD, (dictGet_eq_none_iff m k).mpr h]

theorem dictSet_eq_append [DecidableEq κ] (m : List (κ × α)) (k : κ) (v : α)
    (h : dictGet m k = Option.none) : dictSet m k v = m ++ [(k, v)] := by
  induction m with
  | nil => simp [dictSet]
  | cons p rest ih =>
    by_cases hp : p.1 = k
    · simp [dictGet, hp] at h
    · simp [dictGet, hp] at h
      simp [dictSet, hp, ih h]

theorem mem_of_dictGet_eq_some [DecidableEq κ] (m : List (κ × α)) (k : κ) (v : α)
    (h : dictGet m k = some v) : (k, v) ∈ m := by
  induction m with
  | nil => simp [dictGet] at h
  | cons p rest ih =>
    obtain ⟨k0, v0⟩ := p
    by_cases hp : k0 = k
    · simp [dictGet, hp] at h
      subst hp
      subst h
      exact List.mem_cons_self _ _
    · simp [dictGet, hp] at h
      exact List.mem_cons_of_mem _ (ih h)

theorem dictGet_of_mem_of_nodup [DecidableEq κ] (m : List (κ × α)) (k : κ) (v : α)
    (hnd : (dictKeys m).Nodup) (h : (k, v) ∈ m) : dictGet m k = some v := by
  induction m with
  | nil => simp at h
  | cons p rest ih =>
    obtain ⟨k0, v0⟩ := p
    rw [dictKeys, List.map_cons, List.nodup_cons] at hnd
    rcases List.mem_cons.mp h with h1 | h1
    · rw [Prod.mk.injEq] at h1
      obtain ⟨hk, hv⟩ := h1
      subst hk
      subst hv
      simp [dictGet]
    · have hk : ¬k0 = k := by
        intro he
        apply hnd.1
        have hm : (k, v).1 ∈ List.map Prod.fst rest := List.mem_map_of_mem Prod.fst h1
        simpa [he] using hm
      simp [dictGet, hk]
      exact ih hnd.2 h1

theorem mem_dictSet [DecidableEq κ] (m : List (κ × α)) (k : κ) (v : α) (p : κ × α)
    (h : p ∈ dictSet m k v) : p ∈ m ∨ p = (k, v) := by
  induction m with
  | nil => simp [dictSet] at h; simp [h]
  | cons q rest ih =>
    by_cases hq : q.1 = k
    · simp [dictSet, hq] at h
      rcases h with h | h
      · right; simp [h]
      · left; simp [h]
    · simp [dictSet, hq] at h
      rcases h with h | h
      · left; simp [h]
      · rcases ih h with h | h
        · left; simp [h]
        · right; exact h

theorem mem_dictKeys_dictSet [DecidableEq κ] (m : List (κ × α)) (k k' : κ) (v : α) :
    k' ∈ dictKeys (dictSet m k v) ↔ k' ∈ dictKeys m ∨ k' = k := by
  by_cases hk : k' = k
  · subst hk
    have h1 : k' ∈ dictKeys (dictSet m k' v) := by
      by_contra hc
      have h3 := (dictGet_eq_none_iff (dictSet m k' v) k').mpr hc
      rw [dictGet_dictSet_self] at h3
      exact Option.noConfusion h3
    simp [h1]
  · have h2 : dictGet (dictSet m k v) k' = dictGet m k' :=
      dictGet_dictSet_ne m v fun h => hk h.symm
    have hiff1 : k' ∉ dictKeys (dictSet m k v) ↔ k' ∉ dictKeys m := by
      rw [← dictGet_eq_none_iff, ← dictGet_eq_none_iff, h2]
    constructor
    · intro h
      left
      by_contra hc
      exact hiff1.mpr hc h
    · intro h
      rcases h with h | h
      · by_contra hc
        exact hiff1.mp hc h
      · exact absurd h hk

theorem nodup_dictKeys_dictSet [DecidableEq κ] (m : List (κ × α)) (k : κ) (v : α)
    (h : (dictKeys m).Nodup) : (dictKeys (dictSet m k v)).Nodup := by
  induction m with
  | nil => simp [dictSet, dictKeys]
  | cons p rest ih =>
    obtain ⟨k0, v0⟩ := p
    rw [dictKeys, List.map_cons, List.nodup_cons] at h
    by_cases hp : k0 = k
    · subst hp
      simp only [dictSet, if_true]
      rw [dictKeys, List.map_cons, List.nodup_cons]
      exact ⟨h.1, h.2⟩
    · simp only [dictSet, if_neg hp]
      rw [dictKeys, List.map_cons, List.nodup_cons]
      constructor
      · intro hmem
        rcases (mem_dictKeys_dictSet rest k k0 v).mp hmem with h1 | h1
        · exact h.1 h1
        · exact hp h1
      · exact ih h.2

theorem dictSet_dictSet_same [DecidableEq κ] (m : List (κ × α)) (k : κ) (v w : α) :
    dictSet (dictSet m k v) k w = dictSet m k w := by
  induction m with
  | nil => simp [dictSet]
  | cons p rest ih =>
    by_cases hp : p.1 = k <;> simp [dictSet, hp, ih]

/-! ## Sorting lemmas -/

theorem mem_insertDescBy (key : α → ℚ) (a x : α) (l : List α) :
    x ∈ insertDescBy key a l ↔ x = a ∨ x ∈ l := by
  induction l with
  | nil => simp [insertDescBy]
  | cons b rest ih =>
    by_cases h : key b ≤ key a <;> simp [insertDescBy, h, ih] <;> tauto

theorem mem_sortDescBy (key : α → ℚ) (x : α) (l : List α) :
    x ∈ sortDescBy key l ↔ x ∈ l := by
  induction l with
  | nil => simp [sortDescBy]
  | cons b rest ih =>
    simp [sortDescBy, List.foldr_cons, mem_insertDescBy]
    rw [show List.foldr (insertDescBy key) [] rest = sortDescBy key rest from rfl] at *
    simp [ih]

theorem sortDescBy_eq_nil_iff (key : α → ℚ) (l : List α) :
    sortDescBy key l = [] ↔ l = [] := by
  induction l with
  | nil => simp [sortDescBy]
  | cons b rest ih =>
    simp only [sortDescBy, List.foldr_cons]
    constructor
    · intro h
      cases hrest : List.foldr (insertDescBy key) [] rest with
      | nil => rw [hrest] at h; simp [insertDescBy] at h
      | cons c cs =>
        rw [hrest] at h
        by_cases hc : key c ≤ key b <;> simp [insertDescBy, hc] at h
    · intro h; simp at h

theorem sortDescBy_head_max (key : α → ℚ) (l : List α) (top : α) (rest : List α)
    (h : sortDescBy key l = top :: rest) : ∀ x ∈ l, key x ≤ key top := by
  induction l generalizing top rest with
  | nil => simp [sortDescBy] at h
  | cons b l' ih =>
    simp only [sortDescBy, List.foldr_cons] at h
    cases hl' : List.foldr (insertDescBy key) [] l' with
    | nil =>
      rw [hl'] at h
      simp [insertDescBy] at h
      have hl'nil : l' = [] := (sortDescBy_eq_nil_iff key l').mp hl'
      subst hl'nil
      intro x hx
      simp at hx
      simp [hx, h.1]
    | cons c cs =>
      rw [hl'] at h
      by_cases hc : key c ≤ key b
      · simp [insertDescBy, hc] at h
        intro x hx
        rcases List.mem_cons.mp hx with hx | hx
        · simp [hx, h.1]
        · exact (ih c cs hl' x hx).trans (h.1 ▸ hc)
      · simp [insertDescBy, hc] at h
        intro x hx
        rcases List.mem_cons.mp hx with hx | hx
        · subst hx
          exact h.1 ▸ (le_of_not_le hc)
        · exact h.1 ▸ ih c cs hl' x hx

theorem mem_insertAscBy (key : α → ℚ) (a x : α) (l : List α) :
    x ∈ insertAscBy key a l ↔ x = a ∨ x ∈ l := by
  induction l with
  | nil => simp [insertAscBy]
  | cons b rest ih =>
    by_cases h : key a ≤ key b <;> simp [insertAscBy, h, ih] <;> tauto

theorem mem_sortAscBy (key : α → ℚ) (x : α) (l : List α) :
    x ∈ sortAscBy key l ↔ x ∈ l := by
  induction l with
  | nil => simp [sortAscBy]
  | cons b rest ih =>
    simp [sortAscBy, List.foldr_cons, mem_insertAscBy]
    rw [show List.foldr (insertAscBy key) [] rest = sortAscBy key rest from rfl] at *
    simp [ih]

theorem sortAscBy_eq_nil_iff (key : α → ℚ) (l : List α) :
    sortAscBy key l = [] ↔ l = [] := by
  induction l with
  | nil => simp [sortAscBy]
  | cons b rest ih =>
    simp only [sortAscBy, List.foldr_cons]
    constructor
    · intro h
      cases hrest : List.foldr (insertAscBy key) [] rest with
      | nil => rw [hrest] at h; simp [insertAscBy] at h
      | cons c cs =>
        rw [hrest] at h
        by_cases hc : key b ≤ key c <;> simp [insertAscBy, hc] at h
    · intro h; simp at h

theorem sortAscBy_head_min (key : α → ℚ) (l : List α) (top : α) (rest : List α)
    (h : sortAscBy key l = top :: rest) : ∀ x ∈ l, key top ≤ key x := by
  induction l generalizing top rest with
  | nil => simp [sortAscBy] at h
  | cons b l' ih =>
    simp only [sortAscBy, List.foldr_cons] at h
    cases hl' : List.foldr (insertAscBy key) [] l' with
    | nil =>
      rw [hl'] at h
      simp [insertAscBy] at h
      have hl'nil : l' = [] := (sortAscBy_eq_nil_iff key l').mp hl'
      subst hl'nil
      intro x hx
      simp at hx
      simp [hx, h.1]
    | cons c cs =>
      rw [hl'] at h
      by_cases hc : key b ≤ key c
      · simp [insertAscBy, hc] at h
        intro x hx
        rcases List.mem_cons.mp hx with hx | hx
        · simp [hx, h.1]
        · exact h.1 ▸ ((ih c cs hl' x hx).trans' hc)
      · simp [insertAscBy, hc] at h
        intro x hx
        rcases List.mem_cons.mp hx with hx | hx
        · subst hx
          exact h.1 ▸ (le_of_not_le hc)
        · exact h.1 ▸ ih c cs hl' x hx

theorem sortedDescBy_insertDescBy (key : α → ℚ) (a : α) (l : List α)
    (h : SortedDescBy key l) : SortedDescBy key (insertDescBy key a l) := by
  induction l with
  | nil => simp [insertDescBy, SortedDescBy]
  | cons b rest ih =>
    rcases List.pairwise_cons.mp h with ⟨hb, hrest⟩
    by_cases hc : key b ≤ key a
    · simp only [insertDescBy, hc, if_pos]
      refine List.pairwise_cons.mpr ⟨?_, h⟩
      intro y hy
      rcases List.mem_cons.mp hy with hy | hy
      · simp [hy, hc]
      · exact (hb y hy).trans hc
    · simp only [insertDescBy, hc, if_neg, not_false_iff]
      refine List.pairwise_cons.mpr ⟨?_, ih hrest⟩
      intro y hy
      rcases (mem_insertDescBy key a y rest).mp hy with hy | hy
      · subst hy
        exact le_of_not_le hc
      · exact hb y hy

theorem sortDescBy_sorted (key : α → ℚ) (l : List α) :
    SortedDescBy key (sortDescBy key l) := by
  induction l with
  | nil => simp [sortDescBy, SortedDescBy]
  | cons b rest ih =>
    simpa [sortDescBy] using sortedDescBy_insertDescBy key b _ ih

/-! ## Accumulation lemmas for `calculate_cumulative_stats` -/

theorem recSum_dictSet (table m : List (String × ℚ)) (k : String) (v : ℚ) :
    recSum table (dictSet m k v) =
      recSum table m + (v - dictGetD m k 0) * dictGetD table k 0 := by
  induction m with
  | nil => simp [dictSet, recSum, dictGetD, dictGet]
  | cons p rest ih =>
    obtain ⟨k1, v1⟩ := p
    by_cases hp : k1 = k
    · subst hp
      have hs : dictSet ((k1, v1) :: rest) k1 v = (k1, v) :: rest := by
        simp [dictSet]
      rw [hs]
      simp only [recSum, List.map_cons, List.sum_cons]
      have hD : dictGetD ((k1, v1) :: rest) k1 0 = v1 := by simp [dictGetD, dictGet]
      rw [hD]
      ring
    · have hs : dictSet ((k1, v1) :: rest) k v = (k1, v1) :: dictSet rest k v := by
        simp [dictSet, hp]
      rw [hs]
      simp only [recSum, List.map_cons, List.sum_cons] at ih ⊢
      rw [ih]
      have hD : dictGetD ((k1, v1) :: rest) k 0 = dictGetD rest k 0 := by
        simp [dictGetD, dictGet, hp]
      rw [hD]
      ring

namespace CollectWeeklyStats

theorem dictGetD_initStats (k : String) : dictGetD initStats k 0 = 0 := by
  by_cases h : ("Points" : String) = k <;> simp [initStats, dictGetD, dictGet, h]

theorem dictGetD_addStats (skip : List String) (entries : List (String × ℚ))
    (hnd : (dictKeys entries).Nodup) (base : List (String × ℚ)) (k : String) :
    dictGetD (addStats skip base entries) k 0 =
      dictGetD base k 0 + if k ∈ skip then 0 else dictGetD entries k 0 := by
  induction entries generalizing base with
  | nil =>
    by_cases hk : k ∈ skip <;> simp [addStats, dictGetD, dictGet, hk]
  | cons kv rest ih =>
    obtain ⟨k1, v1⟩ := kv
    rw [dictKeys, List.map_cons, List.nodup_cons] at hnd
    by_cases h1 : k1 ∈ skip
    · have hstep : addStats skip base ((k1, v1) :: rest) = addStats skip base rest := by
        simp [addStats, h1]
      rw [hstep, ih hnd.2 base]
      by_cases hk : k ∈ skip
      · simp [hk]
      · have hne : ¬k1 = k := fun he => hk (he ▸ h1)
        simp [hk, dictGetD, dictGet, hne]
    · have hstep : addStats skip base ((k1, v1) :: rest)
          = addStats skip (dictSet base k1 (dictGetD base k1 0 + v1)) rest := by
        simp [addStats, h1]
      rw [hstep, ih hnd.2 _]
      by_cases hk1 : k1 = k
      · subst hk1
        rw [dictGetD_dictSet_self]
        have hrest : dictGetD rest k1 0 = 0 :=
          dictGetD_eq_of_not_mem rest k1 0 hnd.1
        have hcons : dictGetD ((k1, v1) :: rest) k1 0 = v1 := by
          simp [dictGetD, dictGet]
        rw [if_neg h1, if_neg h1, hrest, hcons]
        ring
      · rw [dictGetD_dictSet_ne base _ 0 hk1]
        have hcons : dictGetD ((k1, v1) :: rest) k 0 = dictGetD rest k 0 := by
          simp [dictGetD, dictGet, hk1]
        rw [hcons]

theorem statOf_accumulateRecord (skip : List String) (acc : List (String × StatRecord))
    (r : StatRecord) (t k : String)
    (hr : (dictKeys r.stats).Nodup) (hk : k ∉ skip) :
    statOf (accumulateRecord skip acc r) t k =
      statOf acc t k + if r.team_key = t then dictGetD r.stats k 0 else 0 := by
  cases hacc : dictGet acc r.team_key with
  | some c =>
    have hEq : accumulateRecord skip acc r
        = dictSet acc r.team_key { c with stats := addStats skip c.stats r.stats } := by
      unfold accumulateRecord
      rw [hacc]
    rw [hEq]
    by_cases ht : r.team_key = t
    · subst ht
      simp only [statOf, dictGet_dictSet_self, Option.map_some', Option.getD_some, hacc,
        if_pos rfl]
      rw [dictGetD_addStats skip r.stats hr c.stats k, if_neg hk]
      simp
    · simp only [statOf, dictGet_dictSet_ne acc _ ht, if_neg ht, add_zero]
  | none =>
    have hEq : accumulateRecord skip acc r
        = acc ++ [(r.team_key,
            { team_key := r.team_key, team_name := r.team_name, manager := r.manager,
              stats := addStats skip initStats r.stats })] := by
      unfold accumulateRecord
      rw [hacc]
    rw [hEq]
    by_cases ht : r.team_key = t
    · subst ht
      have hone : ∀ x : StatRecord,
          dictGet [(r.team_key, x)] r.team_key = some x := by
        intro x
        simp [dictGet]
      simp only [statOf, dictGet_append, hacc, Option.none_or, hone, Option.map_some',
        Option.getD_some, Option.map_none', Option.getD_none, if_pos rfl]
      rw [dictGetD_addStats skip r.stats hr initStats k, if_neg hk, dictGetD_initStats]
      simp
    · have hone : ∀ x : StatRecord,
          dictGet [(r.team_key, x)] t = Option.none := by
        intro x
        simp [dictGet, ht]
      simp only [statOf, dictGet_append, hone, Option.or_none, if_neg ht, add_zero]

theorem statOf_foldRecords (skip : List String) (recs : List StatRecord)
    (hr : ∀ r ∈ recs, (dictKeys r.stats).Nodup) (acc : List (String × StatRecord))
    (t k : String) (hk : k ∉ skip) :
    statOf (recs.foldl (accumulateRecord skip) acc) t k = statOf acc t k + teamSum recs t k := by
  induction recs generalizing acc with
  | nil => simp [teamSum]
  | cons r rest ih =>
    rw [List.foldl_cons, ih (fun r' h' => hr r' (List.mem_cons_of_mem _ h')) _,
      statOf_accumulateRecord skip acc r t k (hr r (List.mem_cons_self _ _)) hk]
    by_cases ht : r.team_key = t
    · simp [teamSum, List.filter_cons, ht]
      ring
    · simp [teamSum, List.filter_cons, ht]

theorem statOf_foldWeeks (skip : List String) (side : WeekEntry → List StatRecord)
    (weeks : List (String × WeekEntry))
    (hw : ∀ kv ∈ weeks, ∀ r ∈ side (kv : String × WeekEntry).2, (dictKeys r.stats).Nodup)
    (acc : List (String × StatRecord)) (t k : String) (hk : k ∉ skip) :
    statOf (weeks.foldl (fun a kv => (side kv.2).foldl (accumulateRecord skip) a) acc) t k
      = statOf acc t k + weeksSum side weeks t k := by
  induction weeks generalizing acc with
  | nil => simp [weeksSum]
  | cons w rest ih =>
    rw [List.foldl_cons, ih (fun kv h' => hw kv (List.mem_cons_of_mem _ h')) _,
      statOf_foldRecords skip _ (hw w (List.mem_cons_self _ _)) _ _ _ hk]
    simp [weeksSum]
    ring

theorem accWF_accumulateRecord (skip : List String) (acc : List (String × StatRecord))
    (r : StatRecord) (h : accWF acc) : accWF (accumulateRecord skip acc r) := by
  obtain ⟨hnd, hinv⟩ := h
  cases hacc : dictGet acc r.team_key with
  | some c =>
    have hEq : accumulateRecord skip acc r
        = dictSet acc r.team_key { c with stats := addStats skip c.stats r.stats } := by
      unfold accumulateRecord
      rw [hacc]
    rw [hEq]
    refine ⟨nodup_dictKeys_dictSet acc r.team_key _ hnd, ?_⟩
    intro p hp
    rcases mem_dictSet acc r.team_key _ p hp with h1 | h1
    · exact hinv p h1
    · have hc : c.team_key = r.team_key := hinv _ (mem_of_dictGet_eq_some acc _ c hacc)
      subst h1
      simpa using hc
  | none =>
    have hEq : accumulateRecord skip acc r
        = acc ++ [(r.team_key,
            { team_key := r.team_key, team_name := r.team_name, manager := r.manager,
              stats := addStats skip initStats r.stats })] := by
      unfold accumulateRecord
      rw [hacc]
    rw [hEq]
    have htk : r.team_key ∉ dictKeys acc := (dictGet_eq_none_iff acc _).mp hacc
    constructor
    · rw [dictKeys, List.map_append, List.nodup_append]
      refine ⟨hnd, by simp, ?_⟩
      intro a ha hb
      simp at hb
      subst hb
      exact htk ha
    · intro p hp
      rcases List.mem_append.mp hp with h1 | h1
      · exact hinv p h1
      · simp at h1
        subst h1
        simp

theorem accWF_foldRecords (skip : List String) (recs : List StatRecord)
    (acc : List (String × StatRecord)) (h : accWF acc) :
    accWF (recs.foldl (accumulateRecord skip) acc) := by
  induction recs generalizing acc with
  | nil => exact h
  | cons r rest ih =>
    rw [List.foldl_cons]
    exact ih _ (accWF_accumulateRecord skip acc r h)

theorem accWF_foldWeeks (skip : List String) (side : WeekEntry → List StatRecord)
    (weeks : List (String × WeekEntry)) (acc : List (String × StatRecord)) (h : accWF acc) :
    accWF (weeks.foldl (fun a kv => (side kv.2).foldl (accumulateRecord skip) a) acc) := by
  induction weeks generalizing acc with
  | nil => exact h
  | cons w rest ih =>
    rw [List.foldl_cons]
    exact ih _ (accWF_foldRecords skip _ _ h)

theorem accWF_nil : accWF [] := by
  constructor
  · simp [dictKeys]
  · intro p hp
    simp at hp

theorem statOf_of_mem_values (acc : List (String × StatRecord)) (h : accWF acc)
    (c : StatRecord) (hc : c ∈ acc.map Prod.snd) (k : String) :
    statOf acc c.team_key k = dictGetD c.stats k 0 := by
  rcases List.mem_map.mp hc with ⟨p, hp, hpc⟩
  have h1 : p.2.team_key = p.1 := h.2 p hp
  have h2 : dictGet acc p.1 = some p.2 :=
    dictGet_of_mem_of_nodup acc p.1 p.2 h.1 (by simpa using hp)
  subst hpc
  rw [statOf, h1, h2]
  simp

theorem statOf_nil (t k : String) : statOf [] t k = 0 := by
  simp [statOf, dictGet]

theorem calculate_cumulative_stats_eq (weeks : List (String × WeekEntry)) :
    calculate_cumulative_stats weeks =
      { hitting := (hitAccOf weeks).map fun kv => finalizeHitting kv.2,
        pitching := (pitchAccOf weeks).map fun kv => finalizePitching kv.2 } := rfl

theorem pitchAcc_stat (weeks : List (String × WeekEntry))
    (WF : weeksWF weeks) (c : StatRecord) (hc : c ∈ (pitchAccOf weeks).map Prod.snd)
    (k : String) (hk : k ∉ pitchSkip) :
    dictGetD c.stats k 0 = weeksSum (fun e => e.pitching) weeks c.team_key k := by
  have hwf : accWF (pitchAccOf weeks) := accWF_foldWeeks _ _ _ _ accWF_nil
  rw [← statOf_of_mem_values _ hwf c hc k]
  rw [pitchAccOf] at hc ⊢
  rw [statOf_foldWeeks pitchSkip (fun e => e.pitching) weeks
    (fun kv h' => (WF kv h').2) [] c.team_key k hk, statOf_nil]
  ring

theorem hitAcc_stat (weeks : List (String × WeekEntry))
    (WF : weeksWF weeks) (c : StatRecord) (hc : c ∈ (hitAccOf weeks).map Prod.snd)
    (k : String) :
    dictGetD c.stats k 0 = weeksSum (fun e => e.hitting) weeks c.team_key k := by
  have hwf : accWF (hitAccOf weeks) := accWF_foldWeeks _ _ _ _ accWF_nil
  rw [← statOf_of_mem_values _ hwf c hc k]
  rw [hitAccOf] at hc ⊢
  rw [statOf_foldWeeks hitSkip (fun e => e.hitting) weeks
    (fun kv h' => (WF kv h').1) [] c.team_key k (by simp [hitSkip]), statOf_nil]
  ring

/-! ## Derived-field lemmas -/

theorem getD_deriveRates_ERA (s : List (String × ℚ)) :
    dictGetD (deriveRates s) "ERA" 0 =
      if 0 < dictGetD s "IP" 0 then
        roundTo (dictGetD s "ER" 0 * 9 / dictGetD s "IP" 0) 2
      else 0 := by
  by_cases h : 0 < dictGetD s "IP" 0
  · simp only [deriveRates, if_pos h]
    rw [dictGetD_dictSet_ne _ _ _ (by decide : ("K/9" : String) ≠ "ERA"),
      dictGetD_dictSet_self]
  · simp only [deriveRates, if_neg h]
    rw [dictGetD_dictSet_ne _ _ _ (by decide : ("K/9" : String) ≠ "ERA"),
      dictGetD_dictSet_self]

theorem getD_deriveRates_K9 (s : List (String × ℚ)) :
    dictGetD (deriveRates s) "K/9" 0 =
      if 0 < dictGetD s "IP" 0 then
        roundTo (dictGetD s "K" 0 * 9 / dictGetD s "IP" 0) 2
      else 0 := by
  by_cases h : 0 < dictGetD s "IP" 0
  · simp only [deriveRates, if_pos h]
    rw [dictGetD_dictSet_self]
  · simp only [deriveRates, if_neg h]
    rw [dictGetD_dictSet_self]

theorem getD_deriveRates_other (s : List (String × ℚ)) (k : String)
    (h1 : k ≠ "ERA") (h2 : k ≠ "K/9") :
    dictGetD (deriveRates s) k 0 = dictGetD s k 0 := by
  by_cases h : 0 < dictGetD s "IP" 0
  · simp only [deriveRates, if_pos h]
    rw [dictGetD_dictSet_ne _ _ _ (Ne.symm h2), dictGetD_dictSet_ne _ _ _ (Ne.symm h1)]
  · simp only [deriveRates, if_neg h]
    rw [dictGetD_dictSet_ne _ _ _ (Ne.symm h2), dictGetD_dictSet_ne _ _ _ (Ne.symm h1)]

theorem getD_roundPointsDict_Points (s : List (String × ℚ)) :
    dictGetD (roundPointsDict s) "Points" 0 = roundTo (dictGetD s "Points" 0) 1 := by
  simp only [roundPointsDict]
  rw [dictGetD_dictSet_self]

theorem getD_roundPointsDict_other (s : List (String × ℚ)) (k : String)
    (h : k ≠ "Points") :
    dictGetD (roundPointsDict s) k 0 = dictGetD s k 0 := by
  simp only [roundPointsDict]
  rw [dictGetD_dictSet_ne _ _ _ (Ne.symm h)]

theorem build_pitching_getD_ERA (ti : TeamInfo) (stats : List StatPair) :
    dictGetD (build_pitching ti stats).stats "ERA" 0 =
      if 0 < dictGetD (build_pitching ti stats).stats "IP" 0 then
        roundTo (dictGetD (build_pitching ti stats).stats "ER" 0 * 9 /
          dictGetD (build_pitching ti stats).stats "IP" 0) 2
      else 0 := by
  simp only [build_pitching]
  rw [getD_roundPointsDict_other _ "ERA" (by decide),
    getD_roundPointsDict_other _ "IP" (by decide),
    getD_roundPointsDict_other _ "ER" (by decide),
    getD_deriveRates_other _ "IP" (by decide) (by decide),
    getD_deriveRates_other _ "ER" (by decide) (by decide),
    getD_deriveRates_ERA]

theorem build_pitching_getD_K9 (ti : TeamInfo) (stats : List StatPair) :
    dictGetD (build_pitching ti stats).stats "K/9" 0 =
      if 0 < dictGetD (build_pitching ti stats).stats "IP" 0 then
        roundTo (dictGetD (build_pitching ti stats).stats "K" 0 * 9 /
          dictGetD (build_pitching ti stats).stats "IP" 0) 2
      else 0 := by
  simp only [build_pitching]
  rw [getD_roundPointsDict_other _ "K/9" (by decide),
    getD_roundPointsDict_other _ "IP" (by decide),
    getD_roundPointsDict_other _ "K" (by decide),
    getD_deriveRates_other _ "IP" (by decide) (by decide),
    getD_deriveRates_other _ "K" (by decide) (by decide),
    getD_deriveRates_K9]

theorem finalizePitching_team_key (c : StatRecord) :
    (finalizePitching c).team_key = c.team_key := rfl

theorem finalizeHitting_team_key (c : StatRecord) :
    (finalizeHitting c).team_key = c.team_key := rfl

theorem finalizePitching_getD_ERA (c : StatRecord) :
    dictGetD (finalizePitching c).stats "ERA" 0 =
      if 0 < dictGetD c.stats "IP" 0 then
        roundTo (dictGetD c.stats "ER" 0 * 9 / dictGetD c.stats "IP" 0) 2
      else 0 := by
  show dictGetD (roundPointsDict (deriveRates c.stats)) "ERA" 0 = _
  rw [getD_roundPointsDict_other _ _ (by decide), getD_deriveRates_ERA]

theorem finalizePitching_getD_K9 (c : StatRecord) :
    dictGetD (finalizePitching c).stats "K/9" 0 =
      if 0 < dictGetD c.stats "IP" 0 then
        roundTo (dictGetD c.stats "K" 0 * 9 / dictGetD c.stats "IP" 0) 2
      else 0 := by
  show dictGetD (roundPointsDict (deriveRates c.stats)) "K/9" 0 = _
  rw [getD_roundPointsDict_other _ _ (by decide : ("K/9" : String) ≠ "Points"),
    getD_deriveRates_K9]

theorem finalizePitching_getD_Points (c : StatRecord) :
    dictGetD (finalizePitching c).stats "Points" 0 =
      roundTo (dictGetD c.stats "Points" 0) 1 := by
  show dictGetD (roundPointsDict (deriveRates c.stats)) "Points" 0 = _
  rw [getD_roundPointsDict_Points, getD_deriveRates_other _ _ (by decide) (by decide)]

theorem finalizePitching_getD_base (c : StatRecord) (k : String)
    (h1 : k ≠ "ERA") (h2 : k ≠ "K/9") (h3 : k ≠ "Points") :
    dictGetD (finalizePitching c).stats k 0 = dictGetD c.stats k 0 := by
  show dictGetD (roundPointsDict (deriveRates c.stats)) k 0 = _
  rw [getD_roundPointsDict_other _ _ h3, getD_deriveRates_other _ _ h1 h2]

theorem finalizeHitting_getD_Points (c : StatRecord) :
    dictGetD (finalizeHitting c).stats "Points" 0 =
      roundTo (dictGetD c.stats "Points" 0) 1 := by
  show dictGetD (roundPointsDict c.stats) "Points" 0 = _
  rw [getD_roundPointsDict_Points]

theorem mem_cum_pitching (weeks : List (String × WeekEntry)) (rec : StatRecord)
    (h : rec ∈ (calculate_cumulative_stats weeks).pitching) :
    ∃ c, c ∈ (pitchAccOf weeks).map Prod.snd ∧ rec = finalizePitching c := by
  rw [calculate_cumulative_stats_eq] at h
  rcases List.mem_map.mp h with ⟨kv, hkv, heq⟩
  exact ⟨kv.2, List.mem_map.mpr ⟨kv, hkv, rfl⟩, heq.symm⟩

theorem mem_cum_hitting (weeks : List (String × WeekEntry)) (rec : StatRecord)
    (h : rec ∈ (calculate_cumulative_stats weeks).hitting) :
    ∃ c, c ∈ (hitAccOf weeks).map Prod.snd ∧ rec = finalizeHitting c := by
  rw [calculate_cumulative_stats_eq] at h
  rcases List.mem_map.mp h with ⟨kv, hkv, heq⟩
  exact ⟨kv.2, List.mem_map.mpr ⟨kv, hkv, rfl⟩, heq.symm⟩

/-! ## Claim C1 -/

/-- **C1** (amended).  In the cumulative `SeasonState`, `ERA` and `K/9` of
every cumulative pitching record are recomputed from that team's base stats
(`ER`, `K`, `IP`) summed across all stored weeks, via the rate formulas with
the `IP > 0` guard — never summed.  The cumulative `Points`, however, is
`round(Σ weekly Points, 1)` — the rounded sum of the weekly (already
rounded) derived `Points` fields, for hitting and pitching alike — not the
weighted scoring sum recomputed from the summed base stats; the two agree
exactly when no weekly rounding loss occurs. -/
theorem C1_cumulative_derived_fields (weeks : List (String × WeekEntry))
    (WF : weeksWF weeks) :
    (∀ rec ∈ (calculate_cumulative_stats weeks).pitching,
      dictGetD rec.stats "ERA" 0 =
        (if 0 < weeksSum (fun e => e.pitching) weeks rec.team_key "IP" then
          roundTo (weeksSum (fun e => e.pitching) weeks rec.team_key "ER" * 9 /
            weeksSum (fun e => e.pitching) weeks rec.team_key "IP") 2
        else 0) ∧
      dictGetD rec.stats "K/9" 0 =
        (if 0 < weeksSum (fun e => e.pitching) weeks rec.team_key "IP" then
          roundTo (weeksSum (fun e => e.pitching) weeks rec.team_key "K" * 9 /
            weeksSum (fun e => e.pitching) weeks rec.team_key "IP") 2
        else 0) ∧
      dictGetD rec.stats "Points" 0 =
        roundTo (weeksSum (fun e => e.pitching) weeks rec.team_key "Points") 1) ∧
    (∀ rec ∈ (calculate_cumulative_stats weeks).hitting,
      dictGetD rec.stats "Points" 0 =
        roundTo (weeksSum (fun e => e.hitting) weeks rec.team_key "Points") 1) := by
  constructor
  · intro rec hmem
    obtain ⟨c, hc, hrec⟩ := mem_cum_pitching weeks rec hmem
    have hIP := pitchAcc_stat weeks WF c hc "IP" (by decide)
    have hER := pitchAcc_stat weeks WF c hc "ER" (by decide)
    have hK := pitchAcc_stat weeks WF c hc "K" (by decide)
    have hP := pitchAcc_stat weeks WF c hc "Points" (by decide)
    subst hrec
    rw [finalizePitching_team_key, finalizePitching_getD_ERA, finalizePitching_getD_K9,
      finalizePitching_getD_Points, hIP, hER, hK, hP]
    exact ⟨rfl, rfl, rfl⟩
  · intro rec hmem
    obtain ⟨c, hc, hrec⟩ := mem_cum_hitting weeks rec hmem
    have hP := hitAcc_stat weeks WF c hc "Points"
    subst hrec
    rw [finalizeHitting_team_key, finalizeHitting_getD_Points, hP]

/-- **C1**, counterexample to the claim as stated: with two stored weeks in
which one team's hitting input was the single provider pair
`{stat_id: 13 (RBI), value: 0.02}`, the weekly `Points` are
`round(0.02 × 1.9, 1) = 0.0` each, so the cumulative `Points` is `0.0`;
recomputing the weighted sum from the summed base stats gives
`round(0.04 × 1.9, 1) = 0.1`.  The cumulative `Points` is therefore not the
scoring sum recomputed from summed base stats. -/
theorem C1_counterexample :
    ¬ ∀ rec ∈ (calculate_cumulative_stats
        [("1", ⟨[build_hitting ⟨"t1", "Team One", "M1"⟩ [⟨13, PyValue.num (1/50)⟩]],
                [build_pitching ⟨"t1", "Team One", "M1"⟩ [⟨13, PyValue.num (1/50)⟩]],
                [], [], [], []⟩),
         ("2", ⟨[build_hitting ⟨"t1", "Team One", "M1"⟩ [⟨13, PyValue.num (1/50)⟩]],
                [build_pitching ⟨"t1", "Team One", "M1"⟩ [⟨13, PyValue.num (1/50)⟩]],
                [], [], [], []⟩)]).hitting,
      dictGetD rec.stats "Points" 0 = specPoints BATTING_SCORING rec.stats := by
  decide

/-- **C1**, witness for the amended theorem at a concrete one-week state. -/
theorem C1_witness :
    dictGetD ((calculate_cumulative_stats
        [("1", ⟨[build_hitting ⟨"t1", "Team One", "M1"⟩ [⟨13, PyValue.num 2⟩]],
                [build_pitching ⟨"t1", "Team One", "M1"⟩ [⟨50, PyValue.num 1⟩]],
                [], [], [], []⟩)]).hitting.getD 0 ⟨"", "", "", []⟩).stats "Points" 0
      = roundTo (weeksSum (fun e => e.hitting)
          [("1", ⟨[build_hitting ⟨"t1", "Team One", "M1"⟩ [⟨13, PyValue.num 2⟩]],
                  [build_pitching ⟨"t1", "Team One", "M1"⟩ [⟨50, PyValue.num 1⟩]],
                  [], [], [], []⟩)]
          ((calculate_cumulative_stats
            [("1", ⟨[build_hitting ⟨"t1", "Team One", "M1"⟩ [⟨13, PyValue.num 2⟩]],
                    [build_pitching ⟨"t1", "Team One", "M1"⟩ [⟨50, PyValue.num 1⟩]],
                    [], [], [], []⟩)]).hitting.getD 0 ⟨"", "", "", []⟩).team_key
          "Points") 1 :=
  (C1_cumulative_derived_fields _ (by unfold weeksWF; decide)).2 _ (by decide)

/-! ## Claim C2 -/

/-- **C2** (confirmed).  Week aggregation is idempotent: storing a week entry
under its key and recomputing `cumulative` twice in succession yields the
same `weeks` mapping and the same `cumulative` as doing it once — the
operation replaces `weeks[str(w)]` and fully recomputes `cumulative` from
all stored weeks. -/
theorem C2_aggregate_idempotent (doc : SeasonDoc) (w : ℤ) (e : WeekEntry)
    (now now' : String) :
    (aggregateWeek (aggregateWeek doc w e now) w e now').weeks
        = (aggregateWeek doc w e now).weeks ∧
      (aggregateWeek (aggregateWeek doc w e now) w e now').cumulative
        = (aggregateWeek doc w e now).cumulative := by
  have hw := dictSet_dictSet_same doc.weeks (toString w) e e
  constructor
  · show dictSet (dictSet doc.weeks (toString w) e) (toString w) e
        = dictSet doc.weeks (toString w) e
    exact hw
  · show calculate_cumulative_stats
        (dictSet (dictSet doc.weeks (toString w) e) (toString w) e)
      = calculate_cumulative_stats (dictSet doc.weeks (toString w) e)
    rw [hw]

/-! ## Claim C4 -/

/-- **C4** (amended).  For every pitching `StatRecord` produced (weekly and
cumulative): whenever `IP ≤ 0` — the code's guard is `IP > 0`, so a
non-positive `IP` (0, an absent key, or a negative provider value) takes the
zero branch — `ERA` and `K/9` are exactly `0`; when `IP > 0`,
`ERA = round(ER × 9 / IP, 2)` and `K/9 = round(K × 9 / IP, 2)`.  The
division is guarded, so no division by zero occurs (the rational embedding
has no NaN or infinity to produce). -/
theorem C4_era_k9_ip_guard :
    (∀ (ti : TeamInfo) (stats : List StatPair),
      (dictGetD (build_pitching ti stats).stats "IP" 0 ≤ 0 →
        dictGetD (build_pitching ti stats).stats "ERA" 0 = 0 ∧
          dictGetD (build_pitching ti stats).stats "K/9" 0 = 0) ∧
      (0 < dictGetD (build_pitching ti stats).stats "IP" 0 →
        dictGetD (build_pitching ti stats).stats "ERA" 0 =
            roundTo (dictGetD (build_pitching ti stats).stats "ER" 0 * 9 /
              dictGetD (build_pitching ti stats).stats "IP" 0) 2 ∧
          dictGetD (build_pitching ti stats).stats "K/9" 0 =
            roundTo (dictGetD (build_pitching ti stats).stats "K" 0 * 9 /
              dictGetD (build_pitching ti stats).stats "IP" 0) 2)) ∧
    (∀ (weeks : List (String × WeekEntry)),
      ∀ rec ∈ (calculate_cumulative_stats weeks).pitching,
      (dictGetD rec.stats "IP" 0 ≤ 0 →
        dictGetD rec.stats "ERA" 0 = 0 ∧ dictGetD rec.stats "K/9" 0 = 0) ∧
      (0 < dictGetD rec.stats "IP" 0 →
        dictGetD rec.stats "ERA" 0 =
            roundTo (dictGetD rec.stats "ER" 0 * 9 / dictGetD rec.stats "IP" 0) 2 ∧
          dictGetD rec.stats "K/9" 0 =
            roundTo (dictGetD rec.stats "K" 0 * 9 / dictGetD rec.stats "IP" 0) 2)) := by
  constructor
  · intro ti stats
    constructor
    · intro hip
      rw [build_pitching_getD_ERA, build_pitching_getD_K9,
        if_neg (not_lt.mpr hip), if_neg (not_lt.mpr hip)]
      exact ⟨rfl, rfl⟩
    · intro hip
      rw [build_pitching_getD_ERA, build_pitching_getD_K9, if_pos hip, if_pos hip]
      exact ⟨rfl, rfl⟩
  · intro weeks rec hmem
    obtain ⟨c, hc, hrec⟩ := mem_cum_pitching weeks rec hmem
    subst hrec
    have hIP : dictGetD (finalizePitching c).stats "IP" 0 = dictGetD c.stats "IP" 0 :=
      finalizePitching_getD_base c "IP" (by decide) (by decide) (by decide)
    have hER : dictGetD (finalizePitching c).stats "ER" 0 = dictGetD c.stats "ER" 0 :=
      finalizePitching_getD_base c "ER" (by decide) (by decide) (by decide)
    have hK : dictGetD (finalizePitching c).stats "K" 0 = dictGetD c.stats "K" 0 :=
      finalizePitching_getD_base c "K" (by decide) (by decide) (by decide)
    rw [finalizePitching_getD_ERA, finalizePitching_getD_K9, hIP, hER, hK]
    constructor
    · intro hip
      rw [if_neg (not_lt.mpr hip), if_neg (not_lt.mpr hip)]
      exact ⟨rfl, rfl⟩
    · intro hip
      rw [if_pos hip, if_pos hip]
      exact ⟨rfl, rfl⟩

/-- **C4**, counterexample to the claim as stated: for the provider input
`[{stat_id: 50 (IP), value: -1}, {stat_id: 27 (ER), value: 2}]` the weekly
pitching record has `IP = -1 ≠ 0` yet `ERA = 0`, while the claim's
"otherwise" branch demands `ERA = round(2 × 9 / (-1), 2) = -18` — the code's
guard is `IP > 0`, not `IP == 0`. -/
theorem C4_counterexample :
    ¬ (dictGetD (build_pitching ⟨"t1", "Team One", "M1"⟩
          [⟨50, PyValue.num (-1)⟩, ⟨27, PyValue.num 2⟩]).stats "IP" 0 = 0 ∨
       dictGetD (build_pitching ⟨"t1", "Team One", "M1"⟩
          [⟨50, PyValue.num (-1)⟩, ⟨27, PyValue.num 2⟩]).stats "ERA" 0 =
         roundTo (dictGetD (build_pitching ⟨"t1", "Team One", "M1"⟩
            [⟨50, PyValue.num (-1)⟩, ⟨27, PyValue.num 2⟩]).stats "ER" 0 * 9 /
          dictGetD (build_pitching ⟨"t1", "Team One", "M1"⟩
            [⟨50, PyValue.num (-1)⟩, ⟨27, PyValue.num 2⟩]).stats "IP" 0) 2) := by
  decide

/-! ## Claim C5: category-leader lemmas -/

theorem dictGet_catFold_not_mem (cats : List String) (recs : List StatRecord)
    (ld : List (String × (String × ℚ))) (c : String) (hc : c ∉ cats) :
    dictGet (catFold cats recs ld) c = dictGet ld c := by
  induction cats generalizing ld with
  | nil => rfl
  | cons a rest ih =>
    have h1 : catFold (a :: rest) recs ld
        = catFold rest recs
            (match leaderFor a recs with
             | some e => dictSet ld a e
             | Option.none => ld) := rfl
    rw [h1, ih _ fun hk => hc (List.mem_cons_of_mem _ hk)]
    have hne : a ≠ c := fun he => hc (he ▸ List.mem_cons_self a rest)
    cases hL : leaderFor a recs with
    | some e => exact dictGet_dictSet_ne ld _ hne
    | none => rfl

theorem dictGet_catFold_mem (cats : List String) (recs : List StatRecord)
    (ld : List (String × (String × ℚ))) (c : String) (hnd : cats.Nodup)
    (hc : c ∈ cats) (hld : dictGet ld c = Option.none) :
    dictGet (catFold cats recs ld) c = leaderFor c recs := by
  induction cats generalizing ld with
  | nil => simp at hc
  | cons a rest ih =>
    have h1 : catFold (a :: rest) recs ld
        = catFold rest recs
            (match leaderFor a recs with
             | some e => dictSet ld a e
             | Option.none => ld) := rfl
    rw [h1]
    rcases List.mem_cons.mp hc with hc1 | hc1
    · subst hc1
      have hcrest : c ∉ rest := (List.nodup_cons.mp hnd).1
      rw [dictGet_catFold_not_mem rest recs _ c hcrest]
      cases hL : leaderFor c recs with
      | some e => rw [dictGet_dictSet_self]
      | none => exact hld
    · have hac : a ≠ c := fun he => (List.nodup_cons.mp hnd).1 (he ▸ hc1)
      refine ih _ (List.nodup_cons.mp hnd).2 hc1 ?_
      cases hL : leaderFor a recs with
      | some e => rw [dictGet_dictSet_ne ld _ hac]; exact hld
      | none => exact hld

theorem leaderFor_isSome_iff (cat : String) (recs : List StatRecord) :
    (leaderFor cat recs).isSome ↔ ∃ r ∈ recs, 0 < dictGetD r.stats cat 0 := by
  unfold leaderFor
  cases hs : sortDescBy (fun r => dictGetD r.stats cat 0) recs with
  | nil =>
    have hrecs : recs = [] := (sortDescBy_eq_nil_iff _ recs).mp hs
    subst hrecs
    simp
  | cons top rest =>
    change (if 0 < dictGetD top.stats cat 0 then
        some (top.team_key, dictGetD top.stats cat 0) else Option.none).isSome = true ↔
      ∃ r ∈ recs, 0 < dictGetD r.stats cat 0
    by_cases htop : 0 < dictGetD top.stats cat 0
    · rw [if_pos htop]
      simp only [Option.isSome_some, true_iff]
      refine ⟨top, ?_, htop⟩
      exact (mem_sortDescBy _ top recs).mp (hs ▸ List.mem_cons_self top rest)
    · rw [if_neg htop]
      constructor
      · intro hcon
        exact absurd hcon (by simp)
      · intro hcon
        obtain ⟨r, hr, h0⟩ := hcon
        exact absurd (lt_of_lt_of_le h0 (sortDescBy_head_max _ recs top rest hs r hr)) htop

theorem leaderFor_eq_some (cat : String) (recs : List StatRecord) (e : String × ℚ)
    (h : leaderFor cat recs = some e) :
    ∃ r ∈ recs, r.team_key = e.1 ∧ dictGetD r.stats cat 0 = e.2 ∧ 0 < e.2 ∧
      ∀ r' ∈ recs, dictGetD r'.stats cat 0 ≤ e.2 := by
  unfold leaderFor at h
  cases hs : sortDescBy (fun r => dictGetD r.stats cat 0) recs with
  | nil => rw [hs] at h; exact Option.noConfusion h
  | cons top rest =>
    rw [hs] at h
    change (if 0 < dictGetD top.stats cat 0 then
        some (top.team_key, dictGetD top.stats cat 0) else Option.none) = some e at h
    by_cases htop : 0 < dictGetD top.stats cat 0
    · rw [if_pos htop] at h
      have he := Option.some.inj h
      refine ⟨top, (mem_sortDescBy _ top recs).mp (hs ▸ List.mem_cons_self top rest),
        ?_, ?_, ?_, ?_⟩
      · rw [← he]
      · rw [← he]
      · rw [← he]; exact htop
      · intro r' hr'
        rw [← he]
        exact sortDescBy_head_max _ recs top rest hs r' hr'
    · rw [if_neg htop] at h
      exact Option.noConfusion h

theorem gcl_eq (h p : List StatRecord) :
    get_category_leaders h p =
      (match sortAscBy (fun r => dictGetD r.stats "ERA" 999)
          (p.filter fun r => 0 < dictGetD r.stats "IP" 0) with
        | [] => catFold pitching_cats p (catFold hitting_cats h [])
        | top :: _ => dictSet (catFold pitching_cats p (catFold hitting_cats h []))
            "ERA" (top.team_key, dictGetD top.stats "ERA" 0)) := rfl

theorem dictGet_gcl_ne_era (h p : List StatRecord) (c : String) (hc : c ≠ "ERA") :
    dictGet (get_category_leaders h p) c
      = dictGet (catFold pitching_cats p (catFold hitting_cats h [])) c := by
  rw [gcl_eq]
  cases hs : sortAscBy (fun r => dictGetD r.stats "ERA" 999)
      (p.filter fun r => 0 < dictGetD r.stats "IP" 0) with
  | nil => rfl
  | cons top rest => exact dictGet_dictSet_ne _ _ (Ne.symm hc)

theorem dictGet_gcl_era (h p : List StatRecord) :
    dictGet (get_category_leaders h p) "ERA"
      = (match sortAscBy (fun r => dictGetD r.stats "ERA" 999)
            (p.filter fun r => 0 < dictGetD r.stats "IP" 0) with
        | [] => Option.none
        | top :: _ => some (top.team_key, dictGetD top.stats "ERA" 0)) := by
  rw [gcl_eq]
  cases hs : sortAscBy (fun r => dictGetD r.stats "ERA" 999)
      (p.filter fun r => 0 < dictGetD r.stats "IP" 0) with
  | nil =>
    rw [dictGet_catFold_not_mem _ _ _ _ (by decide),
      dictGet_catFold_not_mem _ _ _ _ (by decide)]
    rfl
  | cons top rest => rw [dictGet_dictSet_self]

/-- **C5** (amended).  For each counting category (hitting `HR, RBI, SB, 1B,
2B, 3B`; pitching `K, W, SV, QS`), the `CategoryLeaders` mapping contains the
category exactly when some team has a positive value in it (so it is omitted
whenever the leading value is zero — or negative), and then maps it to the
`team_key` and value of a team attaining the maximal value.  `ERA`, however,
is present exactly when some team has `IP > 0` — even when the leading
(lowest) `ERA` is zero — and maps to the `team_key` and `ERA` of a team
minimizing the sort key `get('ERA', 999)` among the teams with `IP > 0`. -/
theorem C5_category_leaders (h p : List StatRecord) :
    (∀ cat ∈ hitting_cats,
      ((dictGet (get_category_leaders h p) cat).isSome ↔
        ∃ r ∈ h, 0 < dictGetD r.stats cat 0) ∧
      ∀ e, dictGet (get_category_leaders h p) cat = some e →
        ∃ r ∈ h, r.team_key = e.1 ∧ dictGetD r.stats cat 0 = e.2 ∧ 0 < e.2 ∧
          ∀ r' ∈ h, dictGetD r'.stats cat 0 ≤ e.2) ∧
    (∀ cat ∈ pitching_cats,
      ((dictGet (get_category_leaders h p) cat).isSome ↔
        ∃ r ∈ p, 0 < dictGetD r.stats cat 0) ∧
      ∀ e, dictGet (get_category_leaders h p) cat = some e →
        ∃ r ∈ p, r.team_key = e.1 ∧ dictGetD r.stats cat 0 = e.2 ∧ 0 < e.2 ∧
          ∀ r' ∈ p, dictGetD r'.stats cat 0 ≤ e.2) ∧
    (((dictGet (get_category_leaders h p) "ERA").isSome ↔
        ∃ r ∈ p, 0 < dictGetD r.stats "IP" 0) ∧
      ∀ e, dictGet (get_category_leaders h p) "ERA" = some e →
        ∃ r ∈ p, 0 < dictGetD r.stats "IP" 0 ∧ r.team_key = e.1 ∧
          dictGetD r.stats "ERA" 0 = e.2 ∧
          ∀ r' ∈ p, 0 < dictGetD r'.stats "IP" 0 →
            dictGetD r.stats "ERA" 999 ≤ dictGetD r'.stats "ERA" 999) := by
  have hgetHit : ∀ cat ∈ hitting_cats,
      dictGet (get_category_leaders h p) cat = leaderFor cat h := by
    intro cat hc
    rw [dictGet_gcl_ne_era h p cat ((by decide : ∀ c ∈ hitting_cats, c ≠ "ERA") cat hc),
      dictGet_catFold_not_mem _ _ _ _
        ((by decide : ∀ c ∈ hitting_cats, c ∉ pitching_cats) cat hc)]
    exact dictGet_catFold_mem hitting_cats h [] cat (by decide) hc rfl
  have hgetPit : ∀ cat ∈ pitching_cats,
      dictGet (get_category_leaders h p) cat = leaderFor cat p := by
    intro cat hc
    rw [dictGet_gcl_ne_era h p cat ((by decide : ∀ c ∈ pitching_cats, c ≠ "ERA") cat hc)]
    have hld : dictGet (catFold hitting_cats h []) cat = Option.none := by
      rw [dictGet_catFold_not_mem _ _ _ _
        ((by decide : ∀ c ∈ pitching_cats, c ∉ hitting_cats) cat hc)]
      rfl
    exact dictGet_catFold_mem pitching_cats p _ cat (by decide) hc hld
  refine ⟨?_, ?_, ?_⟩
  · intro cat hc
    rw [hgetHit cat hc]
    exact ⟨leaderFor_isSome_iff cat h, fun e he => leaderFor_eq_some cat h e he⟩
  · intro cat hc
    rw [hgetPit cat hc]
    exact ⟨leaderFor_isSome_iff cat p, fun e he => leaderFor_eq_some cat p e he⟩
  · rw [dictGet_gcl_era h p]
    cases hs : sortAscBy (fun r => dictGetD r.stats "ERA" 999)
        (p.filter fun r => 0 < dictGetD r.stats "IP" 0) with
    | nil =>
      have hfil : (p.filter fun r => 0 < dictGetD r.stats "IP" 0) = [] :=
        (sortAscBy_eq_nil_iff _ _).mp hs
      constructor
      · constructor
        · intro hcon
          exact absurd hcon (by simp)
        · intro hcon
          obtain ⟨r, hr, hip⟩ := hcon
          have hmem2 : r ∈ (p.filter fun r => 0 < dictGetD r.stats "IP" 0) :=
            List.mem_filter.mpr ⟨hr, by simpa using hip⟩
          rw [hfil] at hmem2
          exact absurd hmem2 (by simp)
      · intro e he
        exact Option.noConfusion he
    | cons top rest =>
      have htopf : top ∈ (p.filter fun r => 0 < dictGetD r.stats "IP" 0) :=
        (mem_sortAscBy _ top _).mp (hs ▸ List.mem_cons_self top rest)
      have htopP := List.mem_filter.mp htopf
      constructor
      · constructor
        · intro hcon
          exact ⟨top, htopP.1, by simpa using htopP.2⟩
        · intro hcon
          rfl
      · intro e he
        have hee := Option.some.inj he
        refine ⟨top, htopP.1, by simpa using htopP.2, ?_, ?_, ?_⟩
        · rw [← hee]
        · rw [← hee]
        · intro r' hr' hip'
          refine sortAscBy_head_min _ _ top rest hs r' ?_
          exact List.mem_filter.mpr ⟨hr', by simpa using hip'⟩

/-- **C5**, counterexample to the claim as stated: with a single pitching
record built from `{stat_id: 50 (IP), value: 1}` (so `IP = 1 > 0`, `ER = 0`,
`ERA = 0.0`), the `ERA` category is present in `CategoryLeaders` with leading
value `0` — the zero-leading-value omission rule does not apply to `ERA`. -/
theorem C5_counterexample :
    dictGet (get_category_leaders []
        [build_pitching ⟨"t1", "Team One", "M1"⟩ [⟨50, PyValue.num 1⟩]]) "ERA"
      = some ("t1", 0) := by
  decide

/-- **C5**, witness for the amended theorem: with one hitting record holding
`HR = 2`, the `HR` category is present. -/
theorem C5_witness :
    (dictGet (get_category_leaders
        [build_hitting ⟨"t1", "Team One", "M1"⟩ [⟨63, PyValue.num 2⟩]] []) "HR").isSome :=
  ((C5_category_leaders
      [build_hitting ⟨"t1", "Team One", "M1"⟩ [⟨63, PyValue.num 2⟩]] []).1
    "HR" (by decide)).1.mpr
    ⟨build_hitting ⟨"t1", "Team One", "M1"⟩ [⟨63, PyValue.num 2⟩], by decide, by decide⟩

/-- **C4**, witness for the amended theorem: a weekly record with
`IP = 1 > 0` gets `ERA = round(ER × 9 / IP, 2)`. -/
theorem C4_witness :
    0 < dictGetD (build_pitching ⟨"t1", "Team One", "M1"⟩
        [⟨50, PyValue.num 1⟩, ⟨27, PyValue.num 2⟩]).stats "IP" 0 ∧
      dictGetD (build_pitching ⟨"t1", "Team One", "M1"⟩
          [⟨50, PyValue.num 1⟩, ⟨27, PyValue.num 2⟩]).stats "ERA" 0 =
        roundTo (dictGetD (build_pitching ⟨"t1", "Team One", "M1"⟩
            [⟨50, PyValue.num 1⟩, ⟨27, PyValue.num 2⟩]).stats "ER" 0 * 9 /
          dictGetD (build_pitching ⟨"t1", "Team One", "M1"⟩
            [⟨50, PyValue.num 1⟩, ⟨27, PyValue.num 2⟩]).stats "IP" 0) 2 :=
  ⟨by decide,
    ((C4_era_k9_ip_guard.1 ⟨"t1", "Team One", "M1"⟩
      [⟨50, PyValue.num 1⟩, ⟨27, PyValue.num 2⟩]).2 (by decide)).1⟩

end CollectWeeklyStats

/-! ## Claim C3: scoring lemmas -/

theorem recSum_append (table m l : List (String × ℚ)) :
    recSum table (m ++ l) = recSum table m + recSum table l := by
  simp [recSum]

theorem dictGet_inj_of_snd_nodup [DecidableEq κ] [DecidableEq β] (m : List (κ × β))
    (hnd : (m.map Prod.snd).Nodup) (i j : κ) (c : β)
    (hi : dictGet m i = some c) (hj : dictGet m j = some c) : i = j := by
  induction m with
  | nil => simp [dictGet] at hi
  | cons p rest ih =>
    obtain ⟨k0, v0⟩ := p
    rw [List.map_cons, List.nodup_cons] at hnd
    by_cases hki : k0 = i
    · subst hki
      simp [dictGet] at hi
      by_cases hkj : k0 = j
      · exact hkj
      · simp [dictGet, hkj] at hj
        subst hi
        exact absurd
          (by simpa using List.mem_map_of_mem Prod.snd (mem_of_dictGet_eq_some rest j v0 hj))
          hnd.1
    · simp [dictGet, hki] at hi
      by_cases hkj : k0 = j
      · subst hkj
        simp [dictGet] at hj
        subst hj
        exact absurd
          (by simpa using List.mem_map_of_mem Prod.snd (mem_of_dictGet_eq_some rest i v0 hi))
          hnd.1
      · simp [dictGet, hkj] at hj
        exact ih hnd.2 hi hj

namespace CollectWeeklyStats

theorem resolvedNames_subset (ids : List (ℤ × String)) (stats : List StatPair) :
    ∀ n ∈ resolvedNames ids stats, n ∈ ids.map Prod.snd := by
  intro n hn
  obtain ⟨sp, hsp, hf⟩ := List.mem_filterMap.mp hn
  simpa using List.mem_map_of_mem Prod.snd (mem_of_dictGet_eq_some ids _ n hf)

theorem resolvedNames_nodup (ids : List (ℤ × String))
    (hvals : (ids.map Prod.snd).Nodup) (stats : List StatPair)
    (hids : (stats.map StatPair.stat_id).Nodup) :
    (resolvedNames ids stats).Nodup := by
  induction stats with
  | nil => simp [resolvedNames]
  | cons sp rest ih =>
    rw [List.map_cons, List.nodup_cons] at hids
    rw [resolvedNames, List.filterMap_cons]
    cases hsp : dictGet ids sp.stat_id with
    | none => exact ih hids.2
    | some n =>
      refine List.nodup_cons.mpr ⟨?_, ih hids.2⟩
      intro hmem
      obtain ⟨sp', hsp', hfsp'⟩ := List.mem_filterMap.mp hmem
      have hij : sp.stat_id = sp'.stat_id :=
        dictGet_inj_of_snd_nodup ids hvals _ _ n hsp hfsp'
      exact hids.1 (hij ▸ List.mem_map_of_mem StatPair.stat_id hsp')

theorem applyStat_points_invariant (ids : List (ℤ × String)) (table : List (String × ℚ))
    (hT : dictGetD table "Points" 0 = 0) :
    ∀ (stats : List StatPair) (rec : List (String × ℚ)),
      (resolvedNames ids stats).Nodup →
      (∀ n ∈ resolvedNames ids stats, dictGet rec n = Option.none ∧ n ≠ "Points") →
      dictGetD (stats.foldl (applyStat ids table) rec) "Points" 0
          - recSum table (stats.foldl (applyStat ids table) rec)
        = dictGetD rec "Points" 0 - recSum table rec := by
  intro stats
  induction stats with
  | nil =>
    intro rec _ _
    simp
  | cons sp rest ih =>
    intro rec hnd hfresh
    rw [List.foldl_cons]
    cases hsp : dictGet ids sp.stat_id with
    | none =>
      have hstep : applyStat ids table rec sp = rec := by
        unfold applyStat
        rw [hsp]
      have hres : resolvedNames ids (sp :: rest) = resolvedNames ids rest := by
        simp only [resolvedNames, List.filterMap_cons, hsp]
      rw [hstep]
      exact ih rec (hres ▸ hnd) fun n hn => hfresh n (hres ▸ hn)
    | some statName =>
      have hres : resolvedNames ids (sp :: rest) = statName :: resolvedNames ids rest := by
        simp only [resolvedNames, List.filterMap_cons, hsp]
      have hnd' := hres ▸ hnd
      rw [List.nodup_cons] at hnd'
      obtain ⟨hgetName, hNeP⟩ := hfresh statName (hres ▸ List.mem_cons_self _ _)
      have hfreshRest : ∀ n ∈ resolvedNames ids rest,
          dictGet rec n = Option.none ∧ n ≠ "Points" :=
        fun n hn => hfresh n (hres ▸ List.mem_cons_of_mem _ hn)
      have hrec1 : dictSet rec statName (safe_float sp.value 0)
          = rec ++ [(statName, safe_float sp.value 0)] :=
        dictSet_eq_append rec statName _ hgetName
      have hrec1P : dictGetD (rec ++ [(statName, safe_float sp.value 0)]) "Points" 0
          = dictGetD rec "Points" 0 := by
        rw [dictGetD, dictGet_append]
        have hone : dictGet [(statName, safe_float sp.value 0)] "Points" = Option.none := by
          simp [dictGet, hNeP]
        rw [hone, Option.or_none, ← dictGetD]
      have hrec1S : recSum table (rec ++ [(statName, safe_float sp.value 0)])
          = recSum table rec + safe_float sp.value 0 * dictGetD table statName 0 := by
        rw [recSum_append]
        simp [recSum]
      have hrec1get : ∀ n, n ≠ statName →
          dictGet (rec ++ [(statName, safe_float sp.value 0)]) n = dictGet rec n := by
        intro n hn
        rw [dictGet_append]
        have hns : statName ≠ n := fun he => hn he.symm
        have hone : dictGet [(statName, safe_float sp.value 0)] n = Option.none := by
          simp [dictGet, hns]
        rw [hone, Option.or_none]
      by_cases hsome : (dictGet table statName).isSome
      · have hstep : applyStat ids table rec sp
            = dictSet (rec ++ [(statName, safe_float sp.value 0)]) "Points"
                (dictGetD (rec ++ [(statName, safe_float sp.value 0)]) "Points" 0
                  + safe_float sp.value 0 * dictGetD table statName 0) := by
          unfold applyStat
          rw [hsp]
          simp only [hsome, if_pos, hrec1]
        rw [hstep, ih _ hnd'.2 ?_]
        · rw [dictGetD_dictSet_self, recSum_dictSet, hT, hrec1P, hrec1S]
          ring
        · intro n hn
          refine ⟨?_, (hfreshRest n hn).2⟩
          have hnName : n ≠ statName := fun he => hnd'.1 (he ▸ hn)
          rw [dictGet_dictSet_ne _ _ (Ne.symm (hfreshRest n hn).2), hrec1get n hnName]
          exact (hfreshRest n hn).1
      · have hstep : applyStat ids table rec sp
            = rec ++ [(statName, safe_float sp.value 0)] := by
          unfold applyStat
          rw [hsp]
          simp only [hsome, if_neg, Bool.false_eq_true, not_false_iff, hrec1]
        have hw : dictGetD table statName 0 = 0 := by
          rw [dictGetD, Option.not_isSome_iff_eq_none.mp hsome]
          rfl
        rw [hstep, ih _ hnd'.2 ?_]
        · rw [hrec1P, hrec1S, hw]
          ring
        · intro n hn
          refine ⟨?_, (hfreshRest n hn).2⟩
          have hnName : n ≠ statName := fun he => hnd'.1 (he ▸ hn)
          rw [hrec1get n hnName]
          exact (hfreshRest n hn).1

theorem recSum_deriveRates (table : List (String × ℚ)) (s : List (String × ℚ))
    (hE : dictGetD table "ERA" 0 = 0) (hK : dictGetD table "K/9" 0 = 0) :
    recSum table (deriveRates s) = recSum table s := by
  unfold deriveRates
  split
  · rw [recSum_dictSet, recSum_dictSet, hE, hK]
    ring
  · rw [recSum_dictSet, recSum_dictSet, hE, hK]
    ring

theorem recSum_roundPointsDict (table : List (String × ℚ)) (s : List (String × ℚ))
    (hP : dictGetD table "Points" 0 = 0) :
    recSum table (roundPointsDict s) = recSum table s := by
  unfold roundPointsDict
  rw [recSum_dictSet, hP]
  ring

theorem foldStats_points_eq_recSum (ids : List (ℤ × String)) (table : List (String × ℚ))
    (hT : dictGetD table "Points" 0 = 0)
    (hvals : (ids.map Prod.snd).Nodup)
    (hNoP : ∀ n ∈ ids.map Prod.snd, n ≠ "Points")
    (stats : List StatPair) (hids : (stats.map StatPair.stat_id).Nodup) :
    dictGetD (stats.foldl (applyStat ids table) initStats) "Points" 0
      = recSum table (stats.foldl (applyStat ids table) initStats) := by
  have hfresh : ∀ n ∈ resolvedNames ids stats,
      dictGet initStats n = Option.none ∧ n ≠ "Points" := by
    intro n hn
    have hnP : n ≠ "Points" := hNoP n (resolvedNames_subset ids stats n hn)
    refine ⟨?_, hnP⟩
    have hPn : "Points" ≠ n := fun he => hnP he.symm
    simp [initStats, dictGet, hPn]
  have hinv := applyStat_points_invariant ids table hT stats initStats
    (resolvedNames_nodup ids hvals stats hids) hfresh
  have hinit1 : dictGetD initStats "Points" 0 = 0 := by
    simp [initStats, dictGetD, dictGet]
  have hinit2 : recSum table initStats = 0 := by
    simp [initStats, recSum, hT]
  rw [hinit1, hinit2] at hinv
  linarith

theorem build_hitting_points_spec (ti : TeamInfo) (stats : List StatPair)
    (hids : (stats.map StatPair.stat_id).Nodup) :
    dictGetD (build_hitting ti stats).stats "Points" 0
      = specPoints BATTING_SCORING (build_hitting ti stats).stats := by
  have hT : dictGetD BATTING_SCORING "Points" 0 = 0 := by decide
  have hmain := foldStats_points_eq_recSum BATTING_STAT_IDS BATTING_SCORING hT
    (by decide) (by decide) stats hids
  show dictGetD (roundPointsDict (stats.foldl (applyStat BATTING_STAT_IDS BATTING_SCORING)
      initStats)) "Points" 0
    = specPoints BATTING_SCORING (roundPointsDict (stats.foldl
        (applyStat BATTING_STAT_IDS BATTING_SCORING) initStats))
  rw [getD_roundPointsDict_Points, specPoints, recSum_roundPointsDict _ _ hT, hmain]

theorem build_pitching_points_spec (ti : TeamInfo) (stats : List StatPair)
    (hids : (stats.map StatPair.stat_id).Nodup) :
    dictGetD (build_pitching ti stats).stats "Points" 0
      = specPoints PITCHING_SCORING (build_pitching ti stats).stats := by
  have hT : dictGetD PITCHING_SCORING "Points" 0 = 0 := by decide
  have hmain := foldStats_points_eq_recSum PITCHING_STAT_IDS PITCHING_SCORING hT
    (by decide) (by decide) stats hids
  show dictGetD (roundPointsDict (deriveRates (stats.foldl
      (applyStat PITCHING_STAT_IDS PITCHING_SCORING) initStats))) "Points" 0
    = specPoints PITCHING_SCORING (roundPointsDict (deriveRates (stats.foldl
        (applyStat PITCHING_STAT_IDS PITCHING_SCORING) initStats)))
  rw [getD_roundPointsDict_Points, specPoints, recSum_roundPointsDict _ _ hT,
    recSum_deriveRates _ _ (by decide) (by decide),
    getD_deriveRates_other _ _ (by decide) (by decide), hmain]

end CollectWeeklyStats

namespace FetchProjections

theorem mkBatterRecord_points_spec (pl : RawBatter) :
    (mkBatterRecord pl).projected_points
      = specPoints BATTING_SCORING (mkBatterRecord pl).stats := by
  simp only [mkBatterRecord]
  simp [calculate_batting_points, specPoints, recSum, dictGetD, dictGet, BATTING_SCORING,
    roundTo]
  ring_nf

theorem mkPitcherRecord_points_spec (pl : RawPitcher) :
    (mkPitcherRecord pl).projected_points
      = roundTo (recSumRenamed PITCHING_SCORING (mkPitcherRecord pl).stats) 1 := by
  simp only [mkPitcherRecord]
  simp [calculate_pitching_points, recSumRenamed, recSum, dictGetD, dictGet,
    PITCHING_SCORING, pitchAllowedKey, roundTo]
  ring_nf

/-! ## Membership lemmas for the projection processing loops -/

theorem mem_batterFold (minPA : ℚ) (raw : List RawBatter) :
    ∀ (acc : List ProjRecord) (r : ProjRecord),
      r ∈ raw.foldl (fun acc pl =>
        let q := mkBatterRecord pl
        if minPA ≤ dictGetD q.stats "PA" 0 then acc ++ [q] else acc) acc →
      r ∈ acc ∨ ((∃ pl ∈ raw, r = mkBatterRecord pl) ∧ minPA ≤ dictGetD r.stats "PA" 0) := by
  induction raw with
  | nil =>
    intro acc r h
    exact Or.inl h
  | cons pl rest ih =>
    intro acc r h
    rw [List.foldl_cons] at h
    rcases ih _ r h with h1 | h1
    · have h1' : r ∈ (if minPA ≤ dictGetD (mkBatterRecord pl).stats "PA" 0 then
          acc ++ [mkBatterRecord pl] else acc) := h1
      by_cases hq : minPA ≤ dictGetD (mkBatterRecord pl).stats "PA" 0
      · rw [if_pos hq] at h1'
        rcases List.mem_append.mp h1' with h2 | h2
        · exact Or.inl h2
        · simp at h2
          subst h2
          exact Or.inr ⟨⟨pl, List.mem_cons_self _ _, rfl⟩, hq⟩
      · rw [if_neg hq] at h1'
        exact Or.inl h1'
    · exact Or.inr ⟨⟨h1.1.choose, List.mem_cons_of_mem _ h1.1.choose_spec.1,
        h1.1.choose_spec.2⟩, h1.2⟩

theorem mem_pitcherFold (minIP : ℚ) (raw : List RawPitcher) :
    ∀ (acc : List ProjRecord) (r : ProjRecord),
      r ∈ raw.foldl (fun acc pl =>
        let q := mkPitcherRecord pl
        if minIP ≤ dictGetD q.stats "IP" 0 then acc ++ [q] else acc) acc →
      r ∈ acc ∨ ((∃ pl ∈ raw, r = mkPitcherRecord pl) ∧ minIP ≤ dictGetD r.stats "IP" 0) := by
  induction raw with
  | nil =>
    intro acc r h
    exact Or.inl h
  | cons pl rest ih =>
    intro acc r h
    rw [List.foldl_cons] at h
    rcases ih _ r h with h1 | h1
    · have h1' : r ∈ (if minIP ≤ dictGetD (mkPitcherRecord pl).stats "IP" 0 then
          acc ++ [mkPitcherRecord pl] else acc) := h1
      by_cases hq : minIP ≤ dictGetD (mkPitcherRecord pl).stats "IP" 0
      · rw [if_pos hq] at h1'
        rcases List.mem_append.mp h1' with h2 | h2
        · exact Or.inl h2
        · simp at h2
          subst h2
          exact Or.inr ⟨⟨pl, List.mem_cons_self _ _, rfl⟩, hq⟩
      · rw [if_neg hq] at h1'
        exact Or.inl h1'
    · exact Or.inr ⟨⟨h1.1.choose, List.mem_cons_of_mem _ h1.1.choose_spec.1,
        h1.1.choose_spec.2⟩, h1.2⟩

theorem mem_processBattersWith (minPA : ℚ) (raw : List RawBatter) (r : ProjRecord)
    (h : r ∈ processBattersWith minPA raw) :
    (∃ pl ∈ raw, r = mkBatterRecord pl) ∧ minPA ≤ dictGetD r.stats "PA" 0 := by
  have h1 : r ∈ raw.foldl (fun acc pl =>
      let q := mkBatterRecord pl
      if minPA ≤ dictGetD q.stats "PA" 0 then acc ++ [q] else acc) [] :=
    (mem_sortDescBy _ r _).mp h
  rcases mem_batterFold minPA raw [] r h1 with h2 | h2
  · simp at h2
  · exact h2

theorem mem_processPitchersWith (minIP : ℚ) (raw : List RawPitcher) (r : ProjRecord)
    (h : r ∈ processPitchersWith minIP raw) :
    (∃ pl ∈ raw, r = mkPitcherRecord pl) ∧ minIP ≤ dictGetD r.stats "IP" 0 := by
  have h1 : r ∈ raw.foldl (fun acc pl =>
      let q := mkPitcherRecord pl
      if minIP ≤ dictGetD q.stats "IP" 0 then acc ++ [q] else acc) [] :=
    (mem_sortDescBy _ r _).mp h
  rcases mem_pitcherFold minIP raw [] r h1 with h2 | h2
  · simp at h2
  · exact h2

theorem processBattersWith_sorted (minPA : ℚ) (raw : List RawBatter) :
    SortedDescBy (fun r => r.projected_points) (processBattersWith minPA raw) :=
  sortDescBy_sorted _ _

theorem processPitchersWith_sorted (minIP : ℚ) (raw : List RawPitcher) :
    SortedDescBy (fun r => r.projected_points) (processPitchersWith minIP raw) :=
  sortDescBy_sorted _ _

end FetchProjections

/-! ## Claim C3 -/

/-- **C3** (amended).  Weekly team hitting and pitching records (for provider
stat lists with pairwise-distinct stat ids) and projection batter records
have `Points` equal to the weighted sum over the keys present in both the
record and the applicable table, rounded to one decimal, with keys absent
from the table contributing exactly 0.  Projection **pitcher** records,
however, score the record's `H` and `BB` keys with the table's `HA` and
`BBA` weights (hits/walks allowed); with that key renaming the same
restricted weighted sum holds, and all other keys absent from the table
contribute exactly 0. -/
theorem C3_points_weighted_sum :
    (∀ (ti : CollectWeeklyStats.TeamInfo) (stats : List CollectWeeklyStats.StatPair),
      (stats.map CollectWeeklyStats.StatPair.stat_id).Nodup →
      dictGetD (CollectWeeklyStats.build_hitting ti stats).stats "Points" 0
        = specPoints CollectWeeklyStats.BATTING_SCORING
            (CollectWeeklyStats.build_hitting ti stats).stats) ∧
    (∀ (ti : CollectWeeklyStats.TeamInfo) (stats : List CollectWeeklyStats.StatPair),
      (stats.map CollectWeeklyStats.StatPair.stat_id).Nodup →
      dictGetD (CollectWeeklyStats.build_pitching ti stats).stats "Points" 0
        = specPoints CollectWeeklyStats.PITCHING_SCORING
            (CollectWeeklyStats.build_pitching ti stats).stats) ∧
    (∀ pl : FetchProjections.RawBatter,
      (FetchProjections.mkBatterRecord pl).projected_points
        = specPoints FetchProjections.BATTING_SCORING
            (FetchProjections.mkBatterRecord pl).stats) ∧
    (∀ pl : FetchProjections.RawPitcher,
      (FetchProjections.mkPitcherRecord pl).projected_points
        = roundTo (recSumRenamed FetchProjections.PITCHING_SCORING
            (FetchProjections.mkPitcherRecord pl).stats) 1) :=
  ⟨CollectWeeklyStats.build_hitting_points_spec,
   CollectWeeklyStats.build_pitching_points_spec,
   FetchProjections.mkBatterRecord_points_spec,
   FetchProjections.mkPitcherRecord_points_spec⟩

/-- **C3**, counterexample to the claim as stated: a pitcher projection
record whose only nonzero source stat is `H = 2` (hits allowed) has
`projected_points = round(2 × (-0.75), 1) = -1.5`, while the weighted sum
restricted to keys present in both the record and the table is `0` (`H` is
not a key of the projection pitching table — `HA` is).  A key absent from
the table thus contributes nonzero points. -/
theorem C3_counterexample :
    (FetchProjections.mkPitcherRecord
        { PlayerName := Option.none, Name := Option.none, Team := Option.none,
          teamid := Option.none, GS := Option.none, G := Option.none, W := Option.none,
          L := Option.none, SV := Option.none, HLD := Option.none, IP := Option.none,
          SO := Option.none, K := Option.none, ER := Option.none, H := some 2,
          BB := Option.none, ERA := Option.none, WHIP := Option.none,
          xMLBAMID := Option.none, mlbamid := Option.none,
          MLBAMID := Option.none }).projected_points
      ≠ specPoints FetchProjections.PITCHING_SCORING
          (FetchProjections.mkPitcherRecord
            { PlayerName := Option.none, Name := Option.none, Team := Option.none,
              teamid := Option.none, GS := Option.none, G := Option.none, W := Option.none,
              L := Option.none, SV := Option.none, HLD := Option.none, IP := Option.none,
              SO := Option.none, K := Option.none, ER := Option.none, H := some 2,
              BB := Option.none, ERA := Option.none, WHIP := Option.none,
              xMLBAMID := Option.none, mlbamid := Option.none,
              MLBAMID := Option.none }).stats := by
  decide

/-- **C3**, witness for the amended theorem: a weekly hitting record from two
distinct stat ids. -/
theorem C3_witness :
    dictGetD (CollectWeeklyStats.build_hitting ⟨"t1", "Team One", "M1"⟩
        [⟨63, PyValue.num 2⟩, ⟨13, PyValue.num 3⟩]).stats "Points" 0
      = specPoints CollectWeeklyStats.BATTING_SCORING
          (CollectWeeklyStats.build_hitting ⟨"t1", "Team One", "M1"⟩
            [⟨63, PyValue.num 2⟩, ⟨13, PyValue.num 3⟩]).stats :=
  C3_points_weighted_sum.1 _ _ (by decide)

/-! ## Claim C6 -/

/-- **C6** (confirmed).  Projection filtering thresholds: every record in a
preseason batter list has `PA ≥ 50` and every preseason pitcher `IP ≥ 10`;
every record in a rest-of-season batter list has `PA ≥ 20` and every ROS
pitcher `IP ≥ 5`; no record below the applicable threshold appears in the
output. -/
theorem C6_projection_thresholds :
    (∀ (raw : List FetchProjections.RawBatter) (r : FetchProjections.ProjRecord),
      r ∈ FetchProjections.process_batter_projections raw →
      50 ≤ dictGetD r.stats "PA" 0) ∧
    (∀ (raw : List FetchProjections.RawPitcher) (r : FetchProjections.ProjRecord),
      r ∈ FetchProjections.process_pitcher_projections raw →
      10 ≤ dictGetD r.stats "IP" 0) ∧
    (∀ (raw : List FetchProjections.RawBatter) (r : FetchProjections.ProjRecord),
      r ∈ FetchRosProjections.process_batter_projections raw →
      20 ≤ dictGetD r.stats "PA" 0) ∧
    (∀ (raw : List FetchProjections.RawPitcher) (r : FetchProjections.ProjRecord),
      r ∈ FetchRosProjections.process_pitcher_projections raw →
      5 ≤ dictGetD r.stats "IP" 0) :=
  ⟨fun raw r h => (FetchProjections.mem_processBattersWith 50 raw r h).2,
   fun raw r h => (FetchProjections.mem_processPitchersWith 10 raw r h).2,
   fun raw r h => (FetchProjections.mem_processBattersWith FetchRosProjections.ROS_MIN_PA raw r h).2,
   fun raw r h => (FetchProjections.mem_processPitchersWith FetchRosProjections.ROS_MIN_IP raw r h).2⟩

/-- **C6**, witness: a batter with a projected `PA = 60` appears in the
preseason list and satisfies the threshold. -/
theorem C6_witness :
    50 ≤ dictGetD (FetchProjections.mkBatterRecord
        { PlayerName := Option.none, Name := Option.none, Team := Option.none,
          teamid := Option.none, minpos := Option.none, H := Option.none,
          doubles := Option.none, triples := Option.none, HR := Option.none,
          RBI := Option.none, R := Option.none, SB := Option.none, BB := Option.none,
          SO := Option.none, AVG := Option.none, OPS := Option.none, PA := some 60,
          G := Option.none, xMLBAMID := Option.none, mlbamid := Option.none,
          MLBAMID := Option.none }).stats "PA" 0 :=
  C6_projection_thresholds.1
    [{ PlayerName := Option.none, Name := Option.none, Team := Option.none,
       teamid := Option.none, minpos := Option.none, H := Option.none,
       doubles := Option.none, triples := Option.none, HR := Option.none,
       RBI := Option.none, R := Option.none, SB := Option.none, BB := Option.none,
       SO := Option.none, AVG := Option.none, OPS := Option.none, PA := some 60,
       G := Option.none, xMLBAMID := Option.none, mlbamid := Option.none,
       MLBAMID := Option.none }] _ (by decide)

/-! ## Claim C7 -/

/-- **C7** (confirmed).  For every preseason projection system not in
`FULL_PLAYER_LIST_SYSTEMS`, the saved document holds at most 400 batters and
400 pitchers; they are exactly the first 400 of the processed lists, which
are sorted descending by `projected_points` — i.e. the top 400 per type. -/
theorem C7_preseason_truncation (output_name : String)
    (batters_raw : List FetchProjections.RawBatter)
    (pitchers_raw : List FetchProjections.RawPitcher) (now : String)
    (doc : FetchProjections.ProjectionDoc)
    (hfull : output_name ∉ FetchProjections.FULL_PLAYER_LIST_SYSTEMS)
    (hdoc : FetchProjections.fetch_and_save_projections output_name batters_raw
        pitchers_raw now = some doc) :
    doc.batters.length ≤ 400 ∧ doc.pitchers.length ≤ 400 ∧
    doc.batters = (FetchProjections.process_batter_projections batters_raw).take 400 ∧
    doc.pitchers = (if pitchers_raw.isEmpty then []
        else FetchProjections.process_pitcher_projections pitchers_raw).take 400 ∧
    SortedDescBy (fun r => r.projected_points)
      (FetchProjections.process_batter_projections batters_raw) ∧
    SortedDescBy (fun r => r.projected_points)
      (if pitchers_raw.isEmpty then []
        else FetchProjections.process_pitcher_projections pitchers_raw) := by
  unfold FetchProjections.fetch_and_save_projections at hdoc
  by_cases hempty : batters_raw.isEmpty ∧ pitchers_raw.isEmpty
  · rw [if_pos hempty] at hdoc
    exact Option.noConfusion hdoc
  · rw [if_neg hempty] at hdoc
    have hd := Option.some.inj hdoc
    have hb : doc.batters
        = (FetchProjections.process_batter_projections batters_raw).take 400 := by
      rw [← hd]
      show (if output_name ∈ FetchProjections.FULL_PLAYER_LIST_SYSTEMS then
          FetchProjections.process_batter_projections batters_raw
        else (FetchProjections.process_batter_projections batters_raw).take 400) = _
      rw [if_neg hfull]
    have hp : doc.pitchers
        = (if pitchers_raw.isEmpty then []
            else FetchProjections.process_pitcher_projections pitchers_raw).take 400 := by
      rw [← hd]
      show (if output_name ∈ FetchProjections.FULL_PLAYER_LIST_SYSTEMS then
          (if pitchers_raw.isEmpty then []
            else FetchProjections.process_pitcher_projections pitchers_raw)
        else (if pitchers_raw.isEmpty then []
            else FetchProjections.process_pitcher_projections pitchers_raw).take 400) = _
      rw [if_neg hfull]
    refine ⟨?_, ?_, hb, hp, ?_, ?_⟩
    · rw [hb, List.length_take]
      exact min_le_left _ _
    · rw [hp, List.length_take]
      exact min_le_left _ _
    · exact FetchProjections.processBattersWith_sorted 50 batters_raw
    · by_cases hpe : pitchers_raw.isEmpty
      · rw [if_pos hpe]
        exact List.Pairwise.nil
      · rw [if_neg hpe]
        exact FetchProjections.processPitchersWith_sorted 10 pitchers_raw

/-- **C7**, witness at a concrete non-full-list system with one batter. -/
theorem C7_witness :
    ((FetchProjections.fetch_and_save_projections "steamer"
        [{ PlayerName := Option.none, Name := Option.none, Team := Option.none,
           teamid := Option.none, minpos := Option.none, H := Option.none,
           doubles := Option.none, triples := Option.none, HR := Option.none,
           RBI := Option.none, R := Option.none, SB := Option.none, BB := Option.none,
           SO := Option.none, AVG := Option.none, OPS := Option.none, PA := some 60,
           G := Option.none, xMLBAMID := Option.none, mlbamid := Option.none,
           MLBAMID := Option.none }] [] "now").getD
      ⟨"", 2026, "", false, [], [], Option.none⟩).batters.length ≤ 400 :=
  (C7_preseason_truncation "steamer"
    [{ PlayerName := Option.none, Name := Option.none, Team := Option.none,
       teamid := Option.none, minpos := Option.none, H := Option.none,
       doubles := Option.none, triples := Option.none, HR := Option.none,
       RBI := Option.none, R := Option.none, SB := Option.none, BB := Option.none,
       SO := Option.none, AVG := Option.none, OPS := Option.none, PA := some 60,
       G := Option.none, xMLBAMID := Option.none, mlbamid := Option.none,
       MLBAMID := Option.none }] [] "now"
    ((FetchProjections.fetch_and_save_projections "steamer"
        [{ PlayerName := Option.none, Name := Option.none, Team := Option.none,
           teamid := Option.none, minpos := Option.none, H := Option.none,
           doubles := Option.none, triples := Option.none, HR := Option.none,
           RBI := Option.none, R := Option.none, SB := Option.none, BB := Option.none,
           SO := Option.none, AVG := Option.none, OPS := Option.none, PA := some 60,
           G := Option.none, xMLBAMID := Option.none, mlbamid := Option.none,
           MLBAMID := Option.none }] [] "now").getD
      ⟨"", 2026, "", false, [], [], Option.none⟩)
    (by decide) (by decide)).1

/-! ## Claim C8 -/

/-- **C8** (amended).  The batting and pitching stat-name sets are *not*
disjoint: they overlap in exactly `BB` and `K` (batter walks/strikeouts vs
pitcher walks/strikeouts carry the same names).  Likewise, exactly one
provider stat id — `63`, mapped to `HR` for batting and `QS` for pitching —
appears in both id maps, so a single `{stat_id: 63, value}` pair contributes
to both the hitting and the pitching record of the same team; every other
stat id feeds at most one of the two records. -/
theorem C8_stat_sets_overlap :
    (∀ n ∈ CollectWeeklyStats.BATTING_STAT_IDS.map Prod.snd,
      (n ∈ CollectWeeklyStats.PITCHING_STAT_IDS.map Prod.snd ↔ n = "BB" ∨ n = "K")) ∧
    (∀ i ∈ CollectWeeklyStats.BATTING_STAT_IDS.map Prod.fst,
      (i ∈ CollectWeeklyStats.PITCHING_STAT_IDS.map Prod.fst ↔ i = 63)) := by
  constructor
  · decide
  · decide

/-- **C8**, counterexample to the claim as stated: from the provider input
`[{63, 2}, {14, 3}, {42, 4}]` for one team, the stat name `K` (≠ `Points`)
is produced in both the hitting record (id 14, batter strikeouts) and the
pitching record (id 42, pitcher strikeouts), and the single pair `{63, 2}`
contributes to both records (`HR = 2` hitting, `QS = 2` pitching). -/
theorem C8_counterexample :
    dictGet (CollectWeeklyStats.build_hitting ⟨"t1", "Team One", "M1"⟩
        [⟨63, PyValue.num 2⟩, ⟨14, PyValue.num 3⟩, ⟨42, PyValue.num 4⟩]).stats "K"
      = some 3 ∧
    dictGet (CollectWeeklyStats.build_pitching ⟨"t1", "Team One", "M1"⟩
        [⟨63, PyValue.num 2⟩, ⟨14, PyValue.num 3⟩, ⟨42, PyValue.num 4⟩]).stats "K"
      = some 4 ∧
    dictGet (CollectWeeklyStats.build_hitting ⟨"t1", "Team One", "M1"⟩
        [⟨63, PyValue.num 2⟩, ⟨14, PyValue.num 3⟩, ⟨42, PyValue.num 4⟩]).stats "HR"
      = some 2 ∧
    dictGet (CollectWeeklyStats.build_pitching ⟨"t1", "Team One", "M1"⟩
        [⟨63, PyValue.num 2⟩, ⟨14, PyValue.num 3⟩, ⟨42, PyValue.num 4⟩]).stats "QS"
      = some 2 := by
  refine ⟨by decide, by decide, by decide, by decide⟩

/-- **C8**, witness for the amended theorem at the shared name `BB`. -/
theorem C8_witness :
    "BB" ∈ CollectWeeklyStats.PITCHING_STAT_IDS.map Prod.snd :=
  (C8_stat_sets_overlap.1 "BB" (by decide)).mpr (Or.inl rfl)

/-! ## Claim C9 -/

/-- **C9** (confirmed).  `safe_float` is a total function of the modelled
Python value (no exception can escape: the `ValueError`/`TypeError` path is
the `unconvertible` branch, caught and defaulted): it returns the configured
default exactly on `None`, on values `float()` cannot convert, and on NaN,
and otherwise returns the converted float. -/
theorem C9_safe_float_total (d : ℚ) :
    CollectWeeklyStats.safe_float PyValue.none d = d ∧
    CollectWeeklyStats.safe_float PyValue.nan d = d ∧
    CollectWeeklyStats.safe_float PyValue.unconvertible d = d ∧
    ∀ q : ℚ, CollectWeeklyStats.safe_float (PyValue.num q) d = q :=
  ⟨rfl, rfl, rfl, fun _ => rfl⟩

/-! ## Claim C10 -/

/-- **C10** (confirmed).  Invoking the weekly-stats CLI as `--week N` (for
any integer literal `N` that `int()` parses) performs exactly the same
computation as invoking it with no arguments: the parsed week is discarded,
`collect_weekly_stats()` is called without it, and it always collects the
week returned by `get_completed_week` — so on identical external inputs the
two invocations produce an identical output document. -/
theorem C10_week_arg_discarded (s : String) (n : ℤ) (env : CollectWeeklyStats.Env)
    (hparse : CollectWeeklyStats.pyInt s = some n) :
    CollectWeeklyStats.runMain ["--week", s] env
      = CollectWeeklyStats.runMain [] env := by
  simp [CollectWeeklyStats.runMain, hparse]

/-- **C10**, witness: `--week 3` and no arguments agree on a concrete
environment. -/
theorem C10_witness :
    CollectWeeklyStats.pyInt "3" = some 3 ∧
      CollectWeeklyStats.runMain ["--week", "3"]
          { leagueIds := ["l1"], currentWeek := 3, isMonday := false,
            existing := Option.none, teamsForWeek := fun _ => [],
            matchupsForWeek := fun _ => [], now := "now" }
        = CollectWeeklyStats.runMain []
          { leagueIds := ["l1"], currentWeek := 3, isMonday := false,
            existing := Option.none, teamsForWeek := fun _ => [],
            matchupsForWeek := fun _ => [], now := "now" } :=
  ⟨by decide, C10_week_arg_discarded "3" 3
    { leagueIds := ["l1"], currentWeek := 3, isMonday := false,
      existing := Option.none, teamsForWeek := fun _ => [],
      matchupsForWeek := fun _ => [], now := "now" } (by decide)⟩

end FBCW
